import Mathlib

/-!
A shallow embedding of `tw_pywrap/helper.py` from the
`tower-python-scripts` repository, together with proofs about its
argument-mapping, dispatch and overwrite-reconciliation logic.

Python dictionaries are modelled as ordered association lists (Python
3.7+ dictionaries preserve insertion order and have unique keys),
Python exceptions as `Except`, strings as Lean strings operated on at
the code-point level, and the temporary-file side effect of
`utils.create_temp_yaml` as an explicitly threaded counter.  File and
process input/output (the YAML loader, the spawned CLI) are external
collaborators: the configuration document and the parsed JSON listing
responses are taken as structured inputs.
-/

namespace TwPywrap

/-- Python runtime errors raised by the embedded code. -/
inductive PyErr where
  | keyError (key : String)
  | nameError (name : String)
  | typeError
  deriving DecidableEq

/-- Python values as they occur in a parsed YAML configuration item:
strings, booleans, integers, nested lists and mappings, and `None`. -/
inductive PyValue where
  | str (s : String)
  | bool (b : Bool)
  | int (n : Int)
  | list (xs : List PyValue)
  | dict (ps : List (String × PyValue))
  | none

mutual

/-- Python `repr()` on the values above; scalar renderings are exact
(`True`, `False`, `None`, decimal integers, quoted strings without
escape handling), nested lists and mappings are rendered structurally. -/
def pyRepr : PyValue → String
  | .str s => "'" ++ s ++ "'"
  | .bool true => "True"
  | .bool false => "False"
  | .int n => toString n
  | .none => "None"
  | .list xs => "[" ++ pyReprList xs ++ "]"
  | .dict ps => "\x7b" ++ pyReprDict ps ++ "\x7d"

/-- Comma-joined `repr()` of the elements of a Python list. -/
def pyReprList : List PyValue → String
  | [] => ""
  | [x] => pyRepr x
  | x :: y :: rest => pyRepr x ++ ", " ++ pyReprList (y :: rest)

/-- Comma-joined `repr()` of the entries of a Python dictionary. -/
def pyReprDict : List (String × PyValue) → String
  | [] => ""
  | [p] => "'" ++ p.1 ++ "': " ++ pyRepr p.2
  | p :: q :: rest => "'" ++ p.1 ++ "': " ++ pyRepr p.2 ++ ", " ++ pyReprDict (q :: rest)

end

/-- Python `str()`: the identity on strings, `repr()` on everything else. -/
def pyStr : PyValue → String
  | .str s => s
  | v => pyRepr v

/-- Python `value is True`: identity with the `True` singleton, i.e.
exactly the boolean `true`. -/
def pyIsTrue : PyValue → Bool
  | .bool true => true
  | _ => false

/-- A YAML resource item: a Python dictionary from field name to value. -/
abbrev Item := List (String × PyValue)

/-- Lookup in an association list, i.e. Python `d.get(k)` / `d[k]`. -/
def assocGet {α : Type} : List (String × α) → String → Option α
  | [], _ => Option.none
  | p :: rest, k => if p.1 = k then some p.2 else assocGet rest k

/-- Python `d.get(k)` on a resource item. -/
def dictGet (item : Item) (k : String) : Option PyValue := assocGet item k

/-- Python `s.startswith(pre)`, on code points. -/
def pyStartsWith (s pre : String) : Bool := pre.data.isPrefixOf s.data

/-- Python `s[2:]`, on code points. -/
def pySlice2 (s : String) : String := String.mk (s.data.drop 2)

/-- Substring test on code-point lists, used for Python `sub in s`. -/
def listContainsSub (sub : List Char) : List Char → Bool
  | [] => sub.isPrefixOf []
  | c :: rest => sub.isPrefixOf (c :: rest) || listContainsSub sub rest

/-- Python `sub in s` substring containment on strings. -/
def pyContains (s sub : String) : Bool := listContainsSub sub.data s.data

/-- The elements Python iteration `for x in v` would yield: list
elements, the characters of a string, the keys of a dictionary. -/
def iterElems : PyValue → List PyValue
  | .list xs => xs
  | .str s => s.data.map (fun c => .str (String.mk [c]))
  | .dict ps => ps.map (fun p => .str p.1)
  | _ => []

/-- Python `for x in v`: iterable values yield their elements,
non-iterable scalars raise a `TypeError`. -/
def pyIter : PyValue → Except PyErr (List PyValue)
  | .list xs => .ok (iterElems (.list xs))
  | .str s => .ok (iterElems (.str s))
  | .dict ps => .ok (iterElems (.dict ps))
  | _ => .error .typeError

/-- Modelled from the spec: `utils.create_temp_yaml` is not under
`src/`.  The spec says any `params` nested mapping "is serialized to a
uniquely named temporary file on local disk", "each is uniquely named
per invocation, never reused".  The side effect is modelled by a
threaded counter; invocation `c` yields this fresh file name and the
caller continues with counter `c + 1`. -/
def create_temp_yaml (c : Nat) : String := "/tmp/params_" ++ toString c ++ ".yaml"

/-- Modelled from the spec: `utils.is_url` is not under `src/`.  The
spec describes it as testing "whether an argument looks like a URL";
modelled as an http(s) scheme-prefix test. -/
def is_url (s : String) : Bool := pyStartsWith s "http://" || pyStartsWith s "https://"

/-! ### Argument mappers (`parse_*_block` in `helper.py`) -/

/-- `parse_generic_block`: every field becomes `--field value`. -/
def parse_generic_block : Item → List String
  | [] => []
  | (key, value) :: rest => ("--" ++ key) :: pyStr value :: parse_generic_block rest

/-- `parse_credentials_block`: the `type` field becomes a bare
positional token, every other field becomes `--field value`. -/
def parse_credentials_block : Item → List String
  | [] => []
  | (key, value) :: rest =>
    if key = "type" then pyStr value :: parse_credentials_block rest
    else ("--" ++ key) :: pyStr value :: parse_credentials_block rest

/-- `parse_compute_envs_block`: the `file-path` field becomes a bare
positional token, every other field becomes `--field value`. -/
def parse_compute_envs_block : Item → List String
  | [] => []
  | (key, value) :: rest =>
    if key = "file-path" then pyStr value :: parse_compute_envs_block rest
    else ("--" ++ key) :: pyStr value :: parse_compute_envs_block rest

/-- The loop of `parse_teams_block`, carrying the whole item for the
`item["name"]` / `item["organization"]` lookups made inside the
`members` branch (those raise `KeyError` when the field is absent, but
only once there is at least one member to iterate). -/
def parse_teams_go (item : Item) : Item → Except PyErr (List String × List (List String))
  | [] => .ok ([], [])
  | (key, value) :: rest =>
    if key = "name" ∨ key = "organization" ∨ key = "description" then
      match parse_teams_go item rest with
      | .error e => .error e
      | .ok (cmd, members) => .ok (("--" ++ key) :: pyStr value :: cmd, members)
    else if key = "members" then
      match pyIter value with
      | .error e => .error e
      | .ok [] => parse_teams_go item rest
      | .ok (m :: ms) =>
        match dictGet item "name" with
        | Option.none => .error (.keyError "name")
        | some nameVal =>
          match dictGet item "organization" with
          | Option.none => .error (.keyError "organization")
          | some orgVal =>
            match parse_teams_go item rest with
            | .error e => .error e
            | .ok (cmd, members) =>
              .ok (cmd,
                (m :: ms).map (fun member =>
                  ["--team", pyStr nameVal, "--organization", pyStr orgVal,
                   "add", "--member", pyStr member]) ++ members)
    else parse_teams_go item rest

/-- `parse_teams_block`: `name` / `organization` / `description` become
team-creation flags; each entry of `members` expands to an independent
`--team <name> --organization <org> add --member <member>` list. -/
def parse_teams_block (item : Item) : Except PyErr (List String × List (List String)) :=
  parse_teams_go item item

/-- `parse_actions_block`: `type` becomes positional, `params` is
serialized to a temporary file referenced by `--params-file`, every
other field becomes `--field value`.  The counter models the
temporary-file name state. -/
def parse_actions_block : Item → Nat → List String × Nat
  | [], c => ([], c)
  | (key, value) :: rest, c =>
    if key = "type" then
      let (args, c') := parse_actions_block rest c
      (pyStr value :: args, c')
    else if key = "params" then
      let t := create_temp_yaml c
      let (args, c') := parse_actions_block rest (c + 1)
      ("--params-file" :: t :: args, c')
    else
      let (args, c') := parse_actions_block rest c
      (("--" ++ key) :: pyStr value :: args, c')

/-- The loop of `parse_datasets_block`, carrying the whole item for the
`item["file-path"]` / `item["name"]` / `item["workspace"]` /
`item["description"]` lookups (raising `KeyError` when absent), in the
evaluation order of the Python list literal. -/
def parse_datasets_go (item : Item) : Item → Except PyErr (List String)
  | [] => .ok []
  | (key, value) :: rest =>
    if key = "file-path" then
      match dictGet item "file-path" with
      | Option.none => .error (.keyError "file-path")
      | some fp =>
        match dictGet item "name" with
        | Option.none => .error (.keyError "name")
        | some n =>
          match dictGet item "workspace" with
          | Option.none => .error (.keyError "workspace")
          | some w =>
            match dictGet item "description" with
            | Option.none => .error (.keyError "description")
            | some d =>
              match parse_datasets_go item rest with
              | .error e => .error e
              | .ok args =>
                .ok (pyStr fp :: "--name" :: pyStr n :: "--workspace" :: pyStr w ::
                     "--description" :: pyStr d :: args)
    else if key = "header" then
      if pyIsTrue value then
        match parse_datasets_go item rest with
        | .error e => .error e
        | .ok args => .ok ("--header" :: args)
      else parse_datasets_go item rest
    else parse_datasets_go item rest

/-- `parse_datasets_block`: when `file-path` is reached the positional
file path plus `--name` / `--workspace` / `--description` are emitted
in fixed order (looking the three values up in the item); `header`
equal to `True` emits the bare flag `--header`; any other field is
dropped. -/
def parse_datasets_block (item : Item) : Except PyErr (List String) :=
  parse_datasets_go item item

/-- The loop of `parse_pipelines_block`: a single pass splitting the
fields into repo-positional arguments (`url`, `file-path`), the
`--params-file` pair, and the remaining flags, threading the
temporary-file counter. -/
def parse_pipelines_go : Item → Nat → (List String × List String × List String) × Nat
  | [], c => (([], [], []), c)
  | (key, value) :: rest, c =>
    if key = "url" then
      let ((r, pa, f), c') := parse_pipelines_go rest c
      ((pyStr value :: r, pa, f), c')
    else if key = "params" then
      let t := create_temp_yaml c
      let ((r, pa, f), c') := parse_pipelines_go rest (c + 1)
      ((r, "--params-file" :: t :: pa, f), c')
    else if key = "file-path" then
      let ((r, pa, f), c') := parse_pipelines_go rest c
      ((pyStr value :: r, pa, f), c')
    else
      let ((r, pa, f), c') := parse_pipelines_go rest c
      ((r, pa, ("--" ++ key) :: pyStr value :: f), c')

/-- `parse_pipelines_block`: the repo-positional arguments, then the
`--params-file` pair, then the remaining flags. -/
def parse_pipelines_block (item : Item) (c : Nat) : List String × Nat :=
  let ((r, pa, f), c') := parse_pipelines_go item c
  (r ++ pa ++ f, c')

/-- The loop of `parse_launch_block`: `pipeline` / `url` go to the
repo-positional bucket; `params` is serialized to a temporary file and
its `--params-file` pair is appended to the same bucket as the other
flags, in field order. -/
def parse_launch_go : Item → Nat → (List String × List String) × Nat
  | [], c => (([], []), c)
  | (key, value) :: rest, c =>
    if key = "pipeline" ∨ key = "url" then
      let ((r, f), c') := parse_launch_go rest c
      ((pyStr value :: r, f), c')
    else if key = "params" then
      let t := create_temp_yaml c
      let ((r, f), c') := parse_launch_go rest (c + 1)
      ((r, "--params-file" :: t :: f), c')
    else
      let ((r, f), c') := parse_launch_go rest c
      ((r, ("--" ++ key) :: pyStr value :: f), c')

/-- `parse_launch_block`: the repo-positional arguments, then the rest
of the arguments in field order. -/
def parse_launch_block (item : Item) (c : Nat) : List String × Nat :=
  let ((r, f), c') := parse_launch_go item c
  (r ++ f, c')

/-! ### Block parsing (`parse_block`, `parse_yaml_block`) -/

/-- The mapped argument payload of a command specification: a flat
argument list, or (for `teams`) a primary list plus per-member lists. -/
inductive CmdArgs where
  | flat (args : List String)
  | compound (args : List String) (members : List (List String))

/-- A mapped command specification: the argument payload together with
the `overwrite` value popped from the item. -/
structure CommandSpec where
  cmd_args : CmdArgs
  overwrite : PyValue

/-- `parse_block`: pop `overwrite` (defaulting to `False`), route the
item to the block-specific mapper (falling back to the generic one),
and pair the mapped arguments with the popped overwrite value. -/
def parse_block (block_name : String) (item : Item) (c : Nat) :
    Except PyErr (CommandSpec × Nat) :=
  let overwrite := (dictGet item "overwrite").getD (PyValue.bool false)
  let item' := item.eraseP (fun p => p.1 == "overwrite")
  if block_name = "credentials" then
    .ok (⟨.flat (parse_credentials_block item'), overwrite⟩, c)
  else if block_name = "compute-envs" then
    .ok (⟨.flat (parse_compute_envs_block item'), overwrite⟩, c)
  else if block_name = "teams" then
    match parse_teams_block item' with
    | .error e => .error e
    | .ok (args, members) => .ok (⟨.compound args members, overwrite⟩, c)
  else if block_name = "actions" then
    let (args, c') := parse_actions_block item' c
    .ok (⟨.flat args, overwrite⟩, c')
  else if block_name = "datasets" then
    match parse_datasets_block item' with
    | .error e => .error e
    | .ok args => .ok (⟨.flat args, overwrite⟩, c)
  else if block_name = "pipelines" then
    let (args, c') := parse_pipelines_block item' c
    .ok (⟨.flat args, overwrite⟩, c')
  else if block_name = "launch" then
    let (args, c') := parse_launch_block item' c
    .ok (⟨.flat args, overwrite⟩, c')
  else
    .ok (⟨.flat (parse_generic_block item'), overwrite⟩, c)

/-- A parsed configuration document: block name to list of items (the
YAML loading itself is an external collaborator). -/
abbrev Document := List (String × List Item)

/-- The loop of `parse_yaml_block` over the items of a block. -/
def parse_yaml_items (block_name : String) : List Item → Nat →
    Except PyErr (List CommandSpec × Nat)
  | [], c => .ok ([], c)
  | item :: rest, c =>
    match parse_block block_name item c with
    | .error e => .error e
    | .ok (spec, c') =>
      match parse_yaml_items block_name rest c' with
      | .error e => .error e
      | .ok (specs, c'') => .ok (spec :: specs, c'')

/-- `parse_yaml_block`: look the named block up in the document and map
each of its items.  When the block is absent the source executes
`logging.warn(...)`, but `helper.py` never imports `logging`, so that
line raises `NameError` before the `[{}]` default is built. -/
def parse_yaml_block (data : Document) (block_name : String) (c : Nat) :
    Except PyErr ((String × List CommandSpec) × Nat) :=
  match assocGet data block_name with
  | Option.none => .error (.nameError "logging")
  | some block =>
    match parse_yaml_items block_name block c with
    | .error e => .error e
    | .ok (specs, c') => .ok ((block_name, specs), c')

/-! ### Dispatch handlers (`handle_*` in `helper.py`) -/

/-- A dispatched downstream call: the verb given to the `tw`
subcommand, plus the argument tokens passed along with it. -/
abbrev Call := String × List String

/-- The filtering loop of `handle_participants`: the `skip_next` state
machine that drops every `--role` token together with the token
consumed immediately after it. -/
def participants_filter : Bool → List String → List String
  | _, [] => []
  | skipNext, arg :: rest =>
    if skipNext || arg = "--role" then participants_filter (!skipNext) rest
    else arg :: participants_filter skipNext rest

/-- `handle_participants`: one `add` call with the filtered arguments,
then one `update` call with the original arguments. -/
def handle_participants (args : List String) : List Call :=
  [("add", participants_filter false args), ("update", args)]

/-- The loop of `handle_pipelines` over the argument list: a URL
argument issues `add` and stops the loop; an argument containing
`.json` issues `import` and the loop continues. -/
def handle_pipelines_go (isUrl : String → Bool) (args : List String) :
    List String → List Call
  | [] => []
  | arg :: rest =>
    if isUrl arg then [("add", args)]
    else if pyContains arg ".json" then ("import", args) :: handle_pipelines_go isUrl args rest
    else handle_pipelines_go isUrl args rest

/-- `handle_pipelines`: verb selection by inspecting each argument in
turn; `utils.is_url` is passed in as a parameter (see `is_url` for the
spec-modelled instance). -/
def handle_pipelines (isUrl : String → Bool) (args : List String) : List Call :=
  handle_pipelines_go isUrl args args

/-! ### Overwrite reconciliation (`handle_overwrite` and helpers) -/

/-- The Python dictionary `{key: None for key in keys}` and its updates:
requested key to optional recovered value. -/
abbrev Values := List (String × Option String)

/-- Helper for `initValues`: one entry per requested key not already
seen, at its first occurrence, mapped to `None`. -/
def initValuesAux (seen : List String) : List String → Values
  | [] => []
  | k :: rest =>
    if k ∈ seen then initValuesAux seen rest
    else (k, Option.none) :: initValuesAux (k :: seen) rest

/-- `{key: None for key in keys}`: one entry per distinct requested
key, at its first occurrence, mapped to `None`. -/
def initValues (keys : List String) : Values := initValuesAux [] keys

/-- Python `values[k] = v` on a dictionary already containing `k`. -/
def updateValues (vs : Values) (k : String) (v : Option String) : Values :=
  vs.map (fun p => if p.1 = k then (p.1, v) else p)

/-- Python `values[k]` (with the `None` default the loop starts from). -/
def getValue : Values → String → Option String
  | [], _ => Option.none
  | p :: rest, k => if p.1 = k then p.2 else getValue rest k

/-- The loop of `get_values_from_cmd_args`: a `--`-prefixed token
becomes the pending key (its first two characters stripped); any other
token is recorded under the pending key when that key is truthy
(non-empty) and requested, and always clears the pending key. -/
def gvLoop (keys : List String) : List String → Option String → Values → Values
  | [], _, vs => vs
  | arg :: rest, Option.none, vs =>
    if pyStartsWith arg "--" then gvLoop keys rest (some (pySlice2 arg)) vs
    else gvLoop keys rest Option.none vs
  | arg :: rest, some k, vs =>
    if pyStartsWith arg "--" then gvLoop keys rest (some (pySlice2 arg)) vs
    else if k ≠ "" ∧ k ∈ keys then gvLoop keys rest Option.none (updateValues vs k (some arg))
    else gvLoop keys rest Option.none vs

/-- `get_values_from_cmd_args`: reverse-map a flat argument list into
the requested keys. -/
def get_values_from_cmd_args (cmd_args keys : List String) : Values :=
  gvLoop keys cmd_args Option.none (initValues keys)

/-- One workspace record of the structured `workspaces list` response;
each field is optional, mirroring `workspace.get(...)`. -/
structure Workspace where
  orgName : Option String
  workspaceName : Option String
  workspaceId : Option String
  deriving DecidableEq

/-- The inner loop of `find_workspace_id` over the `workspaces` list:
the id of the first record matching both organization and name. -/
def find_workspace_go : List Workspace → Option String → Option String → Option String
  | [], _, _ => Option.none
  | w :: ws, org, name =>
    if w.orgName = org ∧ w.workspaceName = name then w.workspaceId
    else find_workspace_go ws org name

/-- `find_workspace_id`: `None` when the response has no `workspaces`
key, otherwise the id of the first workspace whose `orgName` and
`workspaceName` both match. -/
def find_workspace_id : Option (List Workspace) → Option String → Option String → Option String
  | Option.none, _, _ => Option.none
  | some ws, org, name => find_workspace_go ws org name

/-- Modelled from the spec: `utils.check_if_exists` is not under
`src/`.  The spec says the reconciler "parses the response and tests
for a record whose `nameKey` field equals the target name", and that
absence of the expected key is "no matches".  For the workspaces flow
the name key is `workspaceId`. -/
def check_if_exists_workspaces : Option (List Workspace) → Option String → Bool
  | Option.none, _ => false
  | some ws, target => ws.any (fun w => w.workspaceId == target)

/-- Python `str()` on an optional string (`str(None)` is `"None"`). -/
def pyStrOpt : Option String → String
  | Option.none => "None"
  | some s => s

/-- The `workspaces` branch of `handle_overwrite`: reverse-map `name`
and `organization` from the mapped arguments, resolve the workspace id
from the unscoped listing by organization and name, override the
reverse-mapped name with that id, and issue `delete --id <id>` when
the existence check finds the id in the listing. -/
def handle_overwrite_workspaces (args : List String) (listing : Option (List Workspace)) :
    Option (List String) :=
  let tw_args := get_values_from_cmd_args args ["name", "organization"]
  let wid := find_workspace_id listing (getValue tw_args "organization") (getValue tw_args "name")
  let tw_args2 := updateValues tw_args "name" wid
  if check_if_exists_workspaces listing (getValue tw_args2 "name") then
    some ["delete", "--id", pyStrOpt (getValue tw_args2 "name")]
  else Option.none

/-! ### Deletion policies of `handle_overwrite` -/

/-- The `generic_deletion` list of `handle_overwrite`: blocks deleted
by `--name` and `--workspace`. -/
def generic_deletion : List String :=
  ["credentials", "secrets", "compute-envs", "datasets", "actions", "pipelines"]

/-- The resource types for which `handle_overwrite` has a deletion
policy: the four bespoke entries of `block_operations` plus the
`generic_deletion` set. -/
def policyBlocks : List String :=
  ["organizations", "teams", "participants", "workspaces"] ++ generic_deletion

/-- The `keys` field of each block's deletion policy: the item fields
`handle_overwrite` reverse-maps out of the flat argument list. -/
def policyKeys (block : String) : List String :=
  if block = "organizations" then ["name"]
  else if block = "teams" then ["name", "organization"]
  else if block = "participants" then ["name", "type", "workspace"]
  else if block = "workspaces" then ["name", "organization"]
  else ["name", "workspace"]

/-- The flat token list `handle_overwrite` reverse-maps for a block:
the mapper's primary argument list (for `teams` the source uses
`args[0]`, the first component of the compound spec). -/
def reverse_args_of (block : String) (item : Item) (c : Nat) : Except PyErr (List String) :=
  match parse_block block item c with
  | .error e => .error e
  | .ok (spec, _) =>
    match spec.cmd_args with
    | .flat args => .ok args
    | .compound args _ => .ok args

/-! ### Spec-side definitions, following the claims' own words -/

/-- Spec-side reading of the `participants` filtering: remove every
`--role` flag together with the value token immediately following it,
scanning left to right. -/
def stripRolePairs : List String → List String
  | [] => []
  | [arg] => if arg = "--role" then [] else [arg]
  | arg :: next :: rest =>
    if arg = "--role" then stripRolePairs rest
    else arg :: stripRolePairs (next :: rest)

/-- Spec-side reading of reverse-mapping one key: the token following
the last occurrence of `--k` that is immediately followed by a
non-flag token.  `pend` carries a flag key already seen just before
the remaining tokens. -/
def flagOccPend (k : String) : Option String → List String → Option String
  | _, [] => Option.none
  | pend, arg :: rest =>
    let newPend := if pyStartsWith arg "--" then some (pySlice2 arg) else Option.none
    match flagOccPend k newPend rest with
    | some v => some v
    | Option.none =>
      if pyStartsWith arg "--" = false ∧ pend = some k then some arg else Option.none

/-- Spec-side bucket: the positional repo arguments of a `pipelines`
item (`url` and `file-path` values), in field order. -/
def pipelinesRepoBucket (item : Item) : List String :=
  item.flatMap (fun p => if p.1 = "url" ∨ p.1 = "file-path" then [pyStr p.2] else [])

/-- Spec-side bucket: the `--params-file` pair of a `pipelines` item
mapped with temporary-file counter `c`, empty when there is no
`params` field. -/
def pipelinesParamsBucket (item : Item) (c : Nat) : List String :=
  match dictGet item "params" with
  | some _ => ["--params-file", create_temp_yaml c]
  | Option.none => []

/-- Spec-side bucket: the remaining flags of a `pipelines` item, in
field order. -/
def pipelinesFlagsBucket (item : Item) : List String :=
  item.flatMap (fun p =>
    if p.1 = "url" ∨ p.1 = "file-path" ∨ p.1 = "params" then []
    else [("--" ++ p.1), pyStr p.2])

/-- Spec-side bucket: the positional repo arguments of a `launch` item
(`pipeline` and `url` values), in field order. -/
def launchRepoBucket (item : Item) : List String :=
  item.flatMap (fun p => if p.1 = "pipeline" ∨ p.1 = "url" then [pyStr p.2] else [])

/-- What a `launch` item actually gets after the repo arguments: the
`--params-file` pair and the remaining flags interleaved in field
order, with temporary-file counter `c`. -/
def launchRestBucket (item : Item) (c : Nat) : List String :=
  item.flatMap (fun p =>
    if p.1 = "pipeline" ∨ p.1 = "url" then []
    else if p.1 = "params" then ["--params-file", create_temp_yaml c]
    else [("--" ++ p.1), pyStr p.2])

/-- Spec-side bucket for the claimed `launch` order: the
`--params-file` pair alone. -/
def launchParamsBucket (item : Item) (c : Nat) : List String :=
  match dictGet item "params" with
  | some _ => ["--params-file", create_temp_yaml c]
  | Option.none => []

/-- Spec-side bucket for the claimed `launch` order: the remaining
flags without the `--params-file` pair. -/
def launchFlagsBucket (item : Item) : List String :=
  item.flatMap (fun p =>
    if p.1 = "pipeline" ∨ p.1 = "url" ∨ p.1 = "params" then []
    else [("--" ++ p.1), pyStr p.2])

/-- The argument list a complete datasets item maps to: the positional
file path plus `--name` / `--workspace` / `--description` in fixed
order where the `file-path` field occurs, and the bare `--header` flag
where a `header: true` field occurs. -/
def datasetsMappedArgs (item : Item) (fp n w d : PyValue) : List String :=
  item.flatMap (fun p =>
    if p.1 = "file-path" then
      [pyStr fp, "--name", pyStr n, "--workspace", pyStr w, "--description", pyStr d]
    else if p.1 = "header" then
      (if pyIsTrue p.2 then ["--header"] else [])
    else [])

/-- No argument token of a mapped command spec is `--overwrite`. -/
def noOverwriteToken : CmdArgs → Prop
  | .flat args => "--overwrite" ∉ args
  | .compound args members => "--overwrite" ∉ args ∧ ∀ m ∈ members, "--overwrite" ∉ m

/-- A value none of whose string renderings can smuggle the literal
token `--overwrite` into an argument list: neither the value itself
nor any element Python iteration would yield stringifies to it. -/
def cleanValue (v : PyValue) : Prop :=
  pyStr v ≠ "--overwrite" ∧ ∀ x ∈ iterElems v, pyStr x ≠ "--overwrite"

/-- A token list from which reverse-mapping key `k` recovers `res`:
either the designated `--k value` pair occurs (with a non-flag value)
followed only by `k`-clean tokens, or the tokens seen so far are
`k`-clean segments. -/
inductive RevChunks (k : String) : List String → Option String → Prop where
  | nil : RevChunks k [] Option.none
  | hit (v : String) (rest : List String) (hv : pyStartsWith v "--" = false)
      (hrest : RevChunks k rest Option.none) :
      RevChunks k (("--" ++ k) :: v :: rest) (some v)
  | clean (seg rest : List String) (res : Option String)
      (hseg : ∀ a ∈ seg, ¬(pyStartsWith a "--" = true ∧ pySlice2 a = k))
      (hrest : RevChunks k rest res) :
      RevChunks k (seg ++ rest) res

/-! ### String-level helper lemmas -/

lemma data_append (s t : String) : (s ++ t).data = s.data ++ t.data := by
  cases s; cases t; rfl

lemma string_ext (s t : String) (h : s.data = t.data) : s = t := by
  cases s; cases t; exact congrArg String.mk h

lemma mk_data (s : String) : String.mk s.data = s := by cases s; rfl

lemma dashdash_data (k : String) : ("--" ++ k).data = '-' :: '-' :: k.data := by
  rw [data_append]; rfl

lemma startsWith_dashdash (k : String) : pyStartsWith ("--" ++ k) "--" = true := by
  simp [pyStartsWith, dashdash_data, List.isPrefixOf]

lemma slice2_dashdash (k : String) : pySlice2 ("--" ++ k) = k := by
  rw [pySlice2, dashdash_data]
  simp [mk_data]

lemma dashdash_eq_iff (k j : String) : ("--" ++ k) = ("--" ++ j) ↔ k = j := by
  constructor
  · intro h
    apply string_ext
    have := congrArg String.data h
    rw [dashdash_data, dashdash_data] at this
    exact (List.cons.injEq _ _ _ _).mp ((List.cons.injEq _ _ _ _).mp this).2 |>.2
  · intro h; rw [h]

lemma dashdash_ne_overwrite (k : String) (h : k ≠ "overwrite") : ("--" ++ k) ≠ "--overwrite" := by
  intro heq
  exact h ((dashdash_eq_iff k "overwrite").mp heq)

lemma not_flag_of_head (a : String) (c0 : Char) (rest : List Char)
    (h : a.data = c0 :: rest) (hc : c0 ≠ '-') : pyStartsWith a "--" = false := by
  simp only [pyStartsWith, h]
  show List.isPrefixOf ('-' :: '-' :: []) (c0 :: rest) = false
  simp [List.isPrefixOf]
  intro hh
  exact absurd hh.symm hc

lemma temp_data (c : Nat) :
    (create_temp_yaml c).data = '/' :: ("tmp/params_".data ++ ((toString c).data ++ ".yaml".data)) := by
  show (("/tmp/params_" ++ toString c) ++ ".yaml").data = _
  rw [data_append, data_append, List.append_assoc]
  rfl

lemma temp_not_flag (c : Nat) : pyStartsWith (create_temp_yaml c) "--" = false :=
  not_flag_of_head _ '/' _ (temp_data c) (by decide)

lemma ne_overwrite_of_not_flag (a : String) (h : pyStartsWith a "--" = false) :
    a ≠ "--overwrite" := by
  intro heq
  rw [heq] at h
  exact absurd h (by decide)

lemma temp_ne_overwrite (c : Nat) : create_temp_yaml c ≠ "--overwrite" :=
  ne_overwrite_of_not_flag _ (temp_not_flag c)

/-! ### C1: `pipelines` dispatch verb selection -/

/-- C1 (code bug): on the argument list `["a.json", "http://example.com"]`
the dispatcher issues an `import` command for the `.json` argument and
then an `add` command for the URL — two commands, the first with the
wrong verb.  The claim (and the code's own comment, "use the
appropriate method and break") requires a single `add`; the `.json`
branch of `handle_pipelines` is missing its `break`. -/
theorem pipelines_dispatch_missing_break :
    handle_pipelines is_url ["a.json", "http://example.com"] =
      [("import", ["a.json", "http://example.com"]),
       ("add", ["a.json", "http://example.com"])] := by decide

/-! ### C2: `participants` dispatch -/

lemma participants_filter_eq_strip : (args : List String) →
    participants_filter false args = stripRolePairs args
  | [] => rfl
  | [arg] => by
    by_cases h : arg = "--role" <;>
      simp [participants_filter, stripRolePairs, h]
  | arg :: next :: rest => by
    by_cases h : arg = "--role"
    · have h1 : participants_filter false (arg :: next :: rest) =
          participants_filter true (next :: rest) := by
        simp [participants_filter, h]
      have h2 : participants_filter true (next :: rest) = participants_filter false rest := by
        simp [participants_filter]
      rw [h1, h2, participants_filter_eq_strip rest]
      simp [stripRolePairs, h]
    · have h1 : participants_filter false (arg :: next :: rest) =
          arg :: participants_filter false (next :: rest) := by
        simp [participants_filter, h]
      rw [h1, participants_filter_eq_strip (next :: rest)]
      simp [stripRolePairs, h]

/-- C2: for every participants argument list, dispatch issues exactly
two calls in order — `add` with the supplied arguments minus every
`--role` flag and the value token immediately following it, then
`update` with all originally supplied arguments unchanged. -/
theorem participants_add_then_update (args : List String) :
    handle_participants args = [("add", stripRolePairs args), ("update", args)] := by
  simp [handle_participants, participants_filter_eq_strip]

/-! ### C4: absent configuration section -/

/-- C4 (code bug): when the named section is absent, `parse_yaml_block`
does not return the default single-item spec — it raises `NameError`,
because the `logging.warn(...)` line runs in a module that never
imports `logging`.  Evaluated here on an empty document and the block
name `info`. -/
theorem parse_yaml_block_absent_section_raises :
    parse_yaml_block [] "info" 0 = .error (.nameError "logging") := rfl

/-! ### Counterexamples for the corrected claims -/

/-- C5 counterexample: a datasets item lacking the required field
`file-path` does not make mapping fail — `parse_datasets_block`
silently returns an empty argument list. -/
theorem datasets_missing_file_path_no_error :
    parse_datasets_block [("name", PyValue.str "x")] = .ok [] := rfl

/-- C6 counterexample: a `launch` item with a flag field before
`params` is not mapped to positional-repo-args, params-file pair, then
remaining flags; the `--params-file` pair stays in field order after
the `--revision` flag. -/
theorem launch_params_not_before_flags :
    (parse_launch_block
        [("revision", PyValue.str "r"), ("params", PyValue.dict []),
         ("pipeline", PyValue.str "p")] 0).1 =
      ["p", "--revision", "r", "--params-file", "/tmp/params_0.yaml"] ∧
    (parse_launch_block
        [("revision", PyValue.str "r"), ("params", PyValue.dict []),
         ("pipeline", PyValue.str "p")] 0).1 ≠
      launchRepoBucket
          [("revision", PyValue.str "r"), ("params", PyValue.dict []),
           ("pipeline", PyValue.str "p")] ++
        launchParamsBucket
          [("revision", PyValue.str "r"), ("params", PyValue.dict []),
           ("pipeline", PyValue.str "p")] 0 ++
        launchFlagsBucket
          [("revision", PyValue.str "r"), ("params", PyValue.dict []),
           ("pipeline", PyValue.str "p")] := by
  constructor
  · rfl
  · decide

/-- C7 counterexample: mapping the same `params`-carrying pipelines
item twice in a row (threading the temporary-file state) yields two
different argument sequences — the `--params-file` value is a fresh
temporary name on each run. -/
theorem params_temp_file_nondeterministic :
    (parse_pipelines_block [("params", PyValue.dict [])] 0).1 ≠
      (parse_pipelines_block [("params", PyValue.dict [])]
        ((parse_pipelines_block [("params", PyValue.dict [])] 0).2)).1 := by decide

/-- C8 counterexample, two failing inputs of the claim as stated.
First: the datasets mapper succeeds on an item holding `name` and
`workspace` but no `file-path`, emitting no arguments at all, so
reverse-mapping recovers `None` for the policy key `name` instead of
its value.  Second: a credentials item whose `name` value is itself
flag-like (`--x`) maps to `--name --x ...`, and the reverse loop
re-parses `--x` as a new flag instead of a value, so `name` is again
recovered as `None` instead of `--x`. -/
theorem reverse_map_loses_policy_keys :
    (reverse_args_of "datasets" [("name", PyValue.str "a"), ("workspace", PyValue.str "w")] 0 =
        .ok [] ∧
      getValue (get_values_from_cmd_args [] (policyKeys "datasets")) "name" = Option.none) ∧
    (reverse_args_of "credentials"
        [("name", PyValue.str "--x"), ("workspace", PyValue.str "w")] 0 =
        .ok ["--name", "--x", "--workspace", "w"] ∧
      getValue (get_values_from_cmd_args ["--name", "--x", "--workspace", "w"]
        (policyKeys "credentials")) "name" = Option.none) := by
  exact ⟨⟨rfl, rfl⟩, ⟨rfl, by decide⟩⟩

/-- C9 counterexample: a field whose value stringifies to the literal
token `--overwrite` puts that token into the mapped argument list even
though the `overwrite` field itself was consumed. -/
theorem overwrite_token_resurfaces_as_value :
    parse_block "secrets" [("foo", PyValue.str "--overwrite")] 0 =
      .ok (⟨.flat ["--foo", "--overwrite"], PyValue.bool false⟩, 0) ∧
    "--overwrite" ∈ ["--foo", "--overwrite"] := by
  exact ⟨rfl, by decide⟩

/-- C10 counterexample: with requested key `""` and arguments
`["--", "x"]`, the token `--` (which is `--` followed by the empty
key) is immediately followed by the non-flag token `x`, yet
`get_values_from_cmd_args` maps `""` to `None` — the loop's Python
truthiness test drops empty keys. -/
theorem get_values_empty_key_not_recovered :
    getValue (get_values_from_cmd_args ["--", "x"] [""]) "" = Option.none ∧
    flagOccPend "" Option.none ["--", "x"] = some "x" := by decide

/-! ### Reverse-mapping dictionary lemmas -/

lemma updateValues_keys (vs : Values) (k : String) (v : Option String) :
    (updateValues vs k v).map Prod.fst = vs.map Prod.fst := by
  induction vs with
  | nil => rfl
  | cons p rest ih =>
    by_cases h : p.1 = k <;> simp [updateValues, h] <;>
      simpa [updateValues] using ih

lemma getValue_updateValues_self (vs : Values) (k : String) (v : Option String)
    (h : k ∈ vs.map Prod.fst) : getValue (updateValues vs k v) k = v := by
  induction vs with
  | nil => simp at h
  | cons p rest ih =>
    by_cases hp : p.1 = k
    · simp [updateValues, getValue, hp]
    · have hmem : k ∈ rest.map Prod.fst := by
        rcases List.mem_cons.mp h with h1 | h1
        · exact absurd h1.symm hp
        · exact h1
      simpa [updateValues, getValue, hp] using ih hmem

lemma getValue_updateValues_ne (vs : Values) (k j : String) (v : Option String)
    (h : j ≠ k) : getValue (updateValues vs k v) j = getValue vs j := by
  induction vs with
  | nil => rfl
  | cons p rest ih =>
    show getValue ((if p.1 = k then (p.1, v) else p) :: updateValues rest k v) j =
      getValue (p :: rest) j
    by_cases hp : p.1 = k
    · rw [if_pos hp]
      show (if p.1 = j then v else getValue (updateValues rest k v) j) = getValue (p :: rest) j
      conv_rhs => rw [getValue]
      rw [if_neg (fun hc => h (hc.symm.trans hp)), if_neg (fun hc => h (hc.symm.trans hp))]
      exact ih
    · rw [if_neg hp]
      show (if p.1 = j then p.2 else getValue (updateValues rest k v) j) = getValue (p :: rest) j
      conv_rhs => rw [getValue]
      by_cases hj : p.1 = j
      · rw [if_pos hj, if_pos hj]
      · rw [if_neg hj, if_neg hj]
        exact ih

lemma gvLoop_keys (keys : List String) : ∀ (args : List String) (key : Option String)
    (vs : Values), (gvLoop keys args key vs).map Prod.fst = vs.map Prod.fst
  | [], _, _ => rfl
  | arg :: rest, Option.none, vs => by
    rw [gvLoop]
    by_cases hf : pyStartsWith arg "--"
    · rw [if_pos hf]
      exact gvLoop_keys keys rest _ vs
    · rw [if_neg hf]
      exact gvLoop_keys keys rest _ vs
  | arg :: rest, some k, vs => by
    rw [gvLoop]
    by_cases hf : pyStartsWith arg "--"
    · rw [if_pos hf]
      exact gvLoop_keys keys rest _ vs
    · rw [if_neg hf]
      by_cases hk : k ≠ "" ∧ k ∈ keys
      · rw [if_pos hk, gvLoop_keys keys rest _ _, updateValues_keys]
      · rw [if_neg hk]
        exact gvLoop_keys keys rest _ vs

lemma get_values_keys (args keys : List String) :
    (get_values_from_cmd_args args keys).map Prod.fst = (initValues keys).map Prod.fst :=
  gvLoop_keys keys args Option.none (initValues keys)

lemma initValuesAux_keys (seen : List String) : ∀ (keys : List String) (k : String),
    k ∈ (initValuesAux seen keys).map Prod.fst ↔ k ∈ keys ∧ k ∉ seen
  | [], k => by simp [initValuesAux]
  | j :: rest, k => by
    rw [initValuesAux]
    by_cases hj : j ∈ seen
    · rw [if_pos hj, initValuesAux_keys seen rest k]
      simp only [List.mem_cons]
      constructor
      · rintro ⟨h1, h2⟩
        exact ⟨Or.inr h1, h2⟩
      · rintro ⟨h1 | h1, h2⟩
        · exact absurd (h1.symm ▸ hj) h2
        · exact ⟨h1, h2⟩
    · rw [if_neg hj]
      simp only [List.map_cons, List.mem_cons]
      rw [initValuesAux_keys (j :: seen) rest k]
      simp only [List.mem_cons]
      constructor
      · rintro (h1 | ⟨h1, h2⟩)
        · exact ⟨Or.inl h1, fun hc => hj (h1 ▸ hc)⟩
        · exact ⟨Or.inr h1, fun hc => h2 (Or.inr hc)⟩
      · rintro ⟨h1 | h1, h2⟩
        · exact Or.inl h1
        · by_cases hkj : k = j
          · exact Or.inl hkj
          · exact Or.inr ⟨h1, fun hc => hc.elim hkj h2⟩

lemma initValues_keys (keys : List String) (k : String) :
    k ∈ (initValues keys).map Prod.fst ↔ k ∈ keys := by
  rw [initValues, initValuesAux_keys]
  simp

lemma get_values_mem_keys (args keys : List String) (k : String) (h : k ∈ keys) :
    k ∈ (get_values_from_cmd_args args keys).map Prod.fst := by
  rw [get_values_keys, initValues_keys]
  exact h

/-! ### C3: workspaces overwrite targets the matching organization -/

lemma find_workspace_go_spec (l : List Workspace) (org name : Option String) (id : String)
    (h : find_workspace_go l org name = some id) :
    ∃ w ∈ l, w.orgName = org ∧ w.workspaceName = name ∧ w.workspaceId = some id := by
  induction l with
  | nil => simp [find_workspace_go] at h
  | cons w ws ih =>
    rw [find_workspace_go] at h
    by_cases hw : w.orgName = org ∧ w.workspaceName = name
    · rw [if_pos hw] at h
      exact ⟨w, List.mem_cons_self _ _, hw.1, hw.2, h⟩
    · rw [if_neg hw] at h
      obtain ⟨w', hmem, h1, h2, h3⟩ := ih h
      exact ⟨w', List.mem_cons_of_mem _ hmem, h1, h2, h3⟩

/-- C3: when workspace-id resolution over the unscoped listing succeeds
for the organization and name reverse-mapped from the arguments, the
overwrite handler issues exactly `delete --id <id>` where `<id>` is
the id of a listed workspace matching both the organization and the
name; a listed workspace under a different organization (ids being
distinct across the listing) is never the delete target. -/
theorem workspaces_overwrite_deletes_matching_only
    (args : List String) (l : List Workspace) (w2 : Workspace) (id : String)
    (hfind : find_workspace_id (some l)
        (getValue (get_values_from_cmd_args args ["name", "organization"]) "organization")
        (getValue (get_values_from_cmd_args args ["name", "organization"]) "name") = some id)
    (hw2mem : w2 ∈ l)
    (hw2org : w2.orgName ≠
        getValue (get_values_from_cmd_args args ["name", "organization"]) "organization")
    (huniq : ∀ w ∈ l, w.workspaceId = some id →
        w.orgName = getValue (get_values_from_cmd_args args ["name", "organization"]) "organization") :
    handle_overwrite_workspaces args (some l) = some ["delete", "--id", id] ∧
    (∃ w ∈ l,
      w.orgName = getValue (get_values_from_cmd_args args ["name", "organization"]) "organization" ∧
      w.workspaceName = getValue (get_values_from_cmd_args args ["name", "organization"]) "name" ∧
      w.workspaceId = some id) ∧
    w2.workspaceId ≠ some id := by
  obtain ⟨w, hwmem, h1, h2, h3⟩ := find_workspace_go_spec l _ _ id hfind
  have hname : getValue
      (updateValues (get_values_from_cmd_args args ["name", "organization"]) "name" (some id))
      "name" = some id :=
    getValue_updateValues_self _ _ _ (get_values_mem_keys args _ "name" (by decide))
  have hcheck : check_if_exists_workspaces (some l) (some id) = true := by
    rw [check_if_exists_workspaces, List.any_eq_true]
    exact ⟨w, hwmem, by simp [h3]⟩
  refine ⟨?_, ⟨w, hwmem, h1, h2, h3⟩, ?_⟩
  · rw [handle_overwrite_workspaces]
    simp only [hfind, hname, hcheck, if_true]
    rfl
  · intro heq
    exact hw2org (huniq w2 hw2mem heq)

/-- Witness for C3 at a concrete listing holding two workspaces that
share the display name `dev` under the organizations `other` and
`acme`: the handler deletes only by the id of the `acme` one. -/
theorem workspaces_overwrite_deletes_matching_only_witness :
    handle_overwrite_workspaces ["--name", "dev", "--organization", "acme"]
        (some [⟨some "other", some "dev", some "2"⟩, ⟨some "acme", some "dev", some "1"⟩]) =
      some ["delete", "--id", "1"] :=
  (workspaces_overwrite_deletes_matching_only
    ["--name", "dev", "--organization", "acme"]
    [⟨some "other", some "dev", some "2"⟩, ⟨some "acme", some "dev", some "1"⟩]
    ⟨some "other", some "dev", some "2"⟩ "1"
    (by decide) (by decide) (by decide) (by decide)).1

/-! ### Unfolding equations for the counter-threaded mappers -/

lemma dictGet_mem : ∀ (item : Item) (k : String) (v : PyValue),
    dictGet item k = some v → (k, v) ∈ item
  | [], _, _, h => by simp [dictGet, assocGet] at h
  | (a, b) :: rest, k, v, h => by
    rw [dictGet, assocGet] at h
    by_cases hp : a = k
    · subst hp
      rw [if_pos rfl, Option.some.injEq] at h
      subst h
      exact List.mem_cons_self _ _
    · rw [if_neg hp] at h
      exact List.mem_cons_of_mem _ (dictGet_mem rest k v h)

lemma parse_actions_cons (key : String) (value : PyValue) (rest : Item) (c : Nat) :
    parse_actions_block ((key, value) :: rest) c =
      if key = "type" then
        (pyStr value :: (parse_actions_block rest c).1, (parse_actions_block rest c).2)
      else if key = "params" then
        ("--params-file" :: create_temp_yaml c :: (parse_actions_block rest (c + 1)).1,
         (parse_actions_block rest (c + 1)).2)
      else
        (("--" ++ key) :: pyStr value :: (parse_actions_block rest c).1,
         (parse_actions_block rest c).2) := by
  rcases h1 : parse_actions_block rest c with ⟨a1, d1⟩
  rcases h2 : parse_actions_block rest (c + 1) with ⟨a2, d2⟩
  rw [parse_actions_block, h1, h2]

lemma parse_pipelines_go_cons (key : String) (value : PyValue) (rest : Item) (c : Nat) :
    parse_pipelines_go ((key, value) :: rest) c =
      if key = "url" then
        ((pyStr value :: (parse_pipelines_go rest c).1.1, (parse_pipelines_go rest c).1.2.1,
          (parse_pipelines_go rest c).1.2.2), (parse_pipelines_go rest c).2)
      else if key = "params" then
        (((parse_pipelines_go rest (c + 1)).1.1,
          "--params-file" :: create_temp_yaml c :: (parse_pipelines_go rest (c + 1)).1.2.1,
          (parse_pipelines_go rest (c + 1)).1.2.2), (parse_pipelines_go rest (c + 1)).2)
      else if key = "file-path" then
        ((pyStr value :: (parse_pipelines_go rest c).1.1, (parse_pipelines_go rest c).1.2.1,
          (parse_pipelines_go rest c).1.2.2), (parse_pipelines_go rest c).2)
      else
        (((parse_pipelines_go rest c).1.1, (parse_pipelines_go rest c).1.2.1,
          ("--" ++ key) :: pyStr value :: (parse_pipelines_go rest c).1.2.2),
         (parse_pipelines_go rest c).2) := by
  rcases h1 : parse_pipelines_go rest c with ⟨⟨r1, pa1, f1⟩, d1⟩
  rcases h2 : parse_pipelines_go rest (c + 1) with ⟨⟨r2, pa2, f2⟩, d2⟩
  rw [parse_pipelines_go, h1, h2]

lemma parse_launch_go_cons (key : String) (value : PyValue) (rest : Item) (c : Nat) :
    parse_launch_go ((key, value) :: rest) c =
      if key = "pipeline" ∨ key = "url" then
        ((pyStr value :: (parse_launch_go rest c).1.1, (parse_launch_go rest c).1.2),
         (parse_launch_go rest c).2)
      else if key = "params" then
        (((parse_launch_go rest (c + 1)).1.1,
          "--params-file" :: create_temp_yaml c :: (parse_launch_go rest (c + 1)).1.2),
         (parse_launch_go rest (c + 1)).2)
      else
        (((parse_launch_go rest c).1.1,
          ("--" ++ key) :: pyStr value :: (parse_launch_go rest c).1.2),
         (parse_launch_go rest c).2) := by
  rcases h1 : parse_launch_go rest c with ⟨⟨r1, f1⟩, d1⟩
  rcases h2 : parse_launch_go rest (c + 1) with ⟨⟨r2, f2⟩, d2⟩
  rw [parse_launch_go, h1, h2]

/-! ### C7: determinism of the mappers -/

lemma actions_counter_irrelevant (c c' : Nat) :
    ∀ (item : Item), (∀ p ∈ item, p.1 ≠ "params") →
      (parse_actions_block item c).1 = (parse_actions_block item c').1
  | [], _ => rfl
  | (key, value) :: rest, h => by
    have hk : key ≠ "params" := h (key, value) (List.mem_cons_self _ _)
    have hr : ∀ q ∈ rest, q.1 ≠ "params" := fun q hq => h q (List.mem_cons_of_mem _ hq)
    rw [parse_actions_cons, parse_actions_cons]
    by_cases ht : key = "type"
    · rw [if_pos ht, if_pos ht]
      show pyStr value :: (parse_actions_block rest c).1 =
        pyStr value :: (parse_actions_block rest c').1
      rw [actions_counter_irrelevant c c' rest hr]
    · rw [if_neg ht, if_neg ht, if_neg hk, if_neg hk]
      show ("--" ++ key) :: pyStr value :: (parse_actions_block rest c).1 =
        ("--" ++ key) :: pyStr value :: (parse_actions_block rest c').1
      rw [actions_counter_irrelevant c c' rest hr]

lemma pipelines_go_counter_irrelevant (c c' : Nat) :
    ∀ (item : Item), (∀ p ∈ item, p.1 ≠ "params") →
      (parse_pipelines_go item c).1 = (parse_pipelines_go item c').1
  | [], _ => rfl
  | (key, value) :: rest, h => by
    have hk : key ≠ "params" := h (key, value) (List.mem_cons_self _ _)
    have hr : ∀ q ∈ rest, q.1 ≠ "params" := fun q hq => h q (List.mem_cons_of_mem _ hq)
    have ih := pipelines_go_counter_irrelevant c c' rest hr
    rw [parse_pipelines_go_cons, parse_pipelines_go_cons]
    by_cases hu : key = "url"
    · simp only [hu, if_true, ih]
    · rw [if_neg hu, if_neg hu, if_neg hk, if_neg hk]
      by_cases hf : key = "file-path"
      · simp only [hf, if_true, ih]
      · rw [if_neg hf, if_neg hf]
        simp only [ih]

lemma launch_go_counter_irrelevant (c c' : Nat) :
    ∀ (item : Item), (∀ p ∈ item, p.1 ≠ "params") →
      (parse_launch_go item c).1 = (parse_launch_go item c').1
  | [], _ => rfl
  | (key, value) :: rest, h => by
    have hk : key ≠ "params" := h (key, value) (List.mem_cons_self _ _)
    have hr : ∀ q ∈ rest, q.1 ≠ "params" := fun q hq => h q (List.mem_cons_of_mem _ hq)
    have ih := launch_go_counter_irrelevant c c' rest hr
    rw [parse_launch_go_cons, parse_launch_go_cons]
    by_cases hu : key = "pipeline" ∨ key = "url"
    · simp only [if_pos hu, ih]
    · rw [if_neg hu, if_neg hu, if_neg hk, if_neg hk]
      simp only [ih]

/-- C7 (amended): argument mapping is deterministic as a function of
the item and the temporary-file-name state; in particular, for every
item with no `params` field, mapping it twice — at any two
temporary-file states — yields identical argument sequences for each
of the three mappers that can create temporary files.  (The remaining
mappers take no state at all, so they are deterministic functions of
the item alone.)  For an item with a `params` field the two runs
differ exactly in the fresh `--params-file` value, as the
counterexample shows. -/
theorem mapping_deterministic_without_params (item : Item) (c c' : Nat)
    (h : ∀ p ∈ item, p.1 ≠ "params") :
    (parse_actions_block item c).1 = (parse_actions_block item c').1 ∧
    (parse_pipelines_block item c).1 = (parse_pipelines_block item c').1 ∧
    (parse_launch_block item c).1 = (parse_launch_block item c').1 := by
  refine ⟨actions_counter_irrelevant c c' item h, ?_, ?_⟩
  · rcases h1 : parse_pipelines_go item c with ⟨⟨r1, pa1, f1⟩, d1⟩
    rcases h2 : parse_pipelines_go item c' with ⟨⟨r2, pa2, f2⟩, d2⟩
    have := pipelines_go_counter_irrelevant c c' item h
    rw [h1, h2] at this
    rw [parse_pipelines_block, parse_pipelines_block, h1, h2]
    simp at this
    simp [this]
  · rcases h1 : parse_launch_go item c with ⟨⟨r1, f1⟩, d1⟩
    rcases h2 : parse_launch_go item c' with ⟨⟨r2, f2⟩, d2⟩
    have := launch_go_counter_irrelevant c c' item h
    rw [h1, h2] at this
    rw [parse_launch_block, parse_launch_block, h1, h2]
    simp at this
    simp [this]

/-- Witness for C7 (amended) on a `params`-free pipelines item mapped
at temporary-file states 0 and 5. -/
theorem mapping_deterministic_without_params_witness :
    (parse_actions_block [("name", PyValue.str "x")] 0).1 =
      (parse_actions_block [("name", PyValue.str "x")] 5).1 ∧
    (parse_pipelines_block [("name", PyValue.str "x")] 0).1 =
      (parse_pipelines_block [("name", PyValue.str "x")] 5).1 ∧
    (parse_launch_block [("name", PyValue.str "x")] 0).1 =
      (parse_launch_block [("name", PyValue.str "x")] 5).1 :=
  mapping_deterministic_without_params [("name", PyValue.str "x")] 0 5 (by decide)

/-! ### C6: argument order of the pipelines and launch mappers -/

lemma pipelinesRepoBucket_cons (key : String) (value : PyValue) (rest : Item) :
    pipelinesRepoBucket ((key, value) :: rest) =
      (if key = "url" ∨ key = "file-path" then [pyStr value] else []) ++
        pipelinesRepoBucket rest := rfl

lemma pipelinesFlagsBucket_cons (key : String) (value : PyValue) (rest : Item) :
    pipelinesFlagsBucket ((key, value) :: rest) =
      (if key = "url" ∨ key = "file-path" ∨ key = "params" then []
       else [("--" ++ key), pyStr value]) ++ pipelinesFlagsBucket rest := rfl

lemma pipelinesParamsBucket_cons (key : String) (value : PyValue) (rest : Item) (c : Nat) :
    pipelinesParamsBucket ((key, value) :: rest) c =
      if key = "params" then ["--params-file", create_temp_yaml c]
      else pipelinesParamsBucket rest c := by
  rw [pipelinesParamsBucket, dictGet, assocGet]
  by_cases hp : key = "params"
  · rw [if_pos hp, if_pos hp]
  · rw [if_neg hp, if_neg hp]
    rfl

lemma launchRepoBucket_cons (key : String) (value : PyValue) (rest : Item) :
    launchRepoBucket ((key, value) :: rest) =
      (if key = "pipeline" ∨ key = "url" then [pyStr value] else []) ++
        launchRepoBucket rest := rfl

lemma launchRestBucket_cons (key : String) (value : PyValue) (rest : Item) (c : Nat) :
    launchRestBucket ((key, value) :: rest) c =
      (if key = "pipeline" ∨ key = "url" then []
       else if key = "params" then ["--params-file", create_temp_yaml c]
       else [("--" ++ key), pyStr value]) ++ launchRestBucket rest c := rfl

lemma pipelines_go_repo : ∀ (item : Item) (c : Nat),
    (parse_pipelines_go item c).1.1 = pipelinesRepoBucket item
  | [], _ => rfl
  | (key, value) :: rest, c => by
    rw [parse_pipelines_go_cons, pipelinesRepoBucket_cons]
    by_cases hu : key = "url"
    · rw [if_pos hu, if_pos (Or.inl hu)]
      show pyStr value :: (parse_pipelines_go rest c).1.1 = pyStr value :: pipelinesRepoBucket rest
      rw [pipelines_go_repo rest c]
    · rw [if_neg hu]
      by_cases hp : key = "params"
      · have hnf : ¬(key = "url" ∨ key = "file-path") := by
          rintro (h | h)
          · exact hu h
          · rw [hp] at h
            exact absurd h (by decide)
        rw [if_pos hp, if_neg hnf]
        show (parse_pipelines_go rest (c + 1)).1.1 = [] ++ pipelinesRepoBucket rest
        rw [pipelines_go_repo rest (c + 1), List.nil_append]
      · rw [if_neg hp]
        by_cases hf : key = "file-path"
        · rw [if_pos hf, if_pos (Or.inr hf)]
          show pyStr value :: (parse_pipelines_go rest c).1.1 =
            pyStr value :: pipelinesRepoBucket rest
          rw [pipelines_go_repo rest c]
        · rw [if_neg hf, if_neg (by rintro (h | h); exacts [hu h, hf h])]
          show (parse_pipelines_go rest c).1.1 = [] ++ pipelinesRepoBucket rest
          rw [pipelines_go_repo rest c, List.nil_append]

lemma pipelines_go_flags : ∀ (item : Item) (c : Nat),
    (parse_pipelines_go item c).1.2.2 = pipelinesFlagsBucket item
  | [], _ => rfl
  | (key, value) :: rest, c => by
    rw [parse_pipelines_go_cons, pipelinesFlagsBucket_cons]
    by_cases hu : key = "url"
    · rw [if_pos hu, if_pos (Or.inl hu)]
      show (parse_pipelines_go rest c).1.2.2 = [] ++ pipelinesFlagsBucket rest
      rw [pipelines_go_flags rest c, List.nil_append]
    · rw [if_neg hu]
      by_cases hp : key = "params"
      · rw [if_pos hp, if_pos (Or.inr (Or.inr hp))]
        show (parse_pipelines_go rest (c + 1)).1.2.2 = [] ++ pipelinesFlagsBucket rest
        rw [pipelines_go_flags rest (c + 1), List.nil_append]
      · rw [if_neg hp]
        by_cases hf : key = "file-path"
        · rw [if_pos hf, if_pos (Or.inr (Or.inl hf))]
          show (parse_pipelines_go rest c).1.2.2 = [] ++ pipelinesFlagsBucket rest
          rw [pipelines_go_flags rest c, List.nil_append]
        · rw [if_neg hf, if_neg (by rintro (h | h | h); exacts [hu h, hf h, hp h])]
          show ("--" ++ key) :: pyStr value :: (parse_pipelines_go rest c).1.2.2 =
            ("--" ++ key) :: pyStr value :: pipelinesFlagsBucket rest
          rw [pipelines_go_flags rest c]

lemma pipelines_go_params_nil : ∀ (item : Item) (c : Nat), (∀ p ∈ item, p.1 ≠ "params") →
    (parse_pipelines_go item c).1.2.1 = []
  | [], _, _ => rfl
  | (key, value) :: rest, c, h => by
    have hk : key ≠ "params" := h (key, value) (List.mem_cons_self _ _)
    have hr : ∀ q ∈ rest, q.1 ≠ "params" := fun q hq => h q (List.mem_cons_of_mem _ hq)
    rw [parse_pipelines_go_cons]
    by_cases hu : key = "url"
    · rw [if_pos hu]
      exact pipelines_go_params_nil rest c hr
    · rw [if_neg hu, if_neg hk]
      by_cases hf : key = "file-path"
      · rw [if_pos hf]
        exact pipelines_go_params_nil rest c hr
      · rw [if_neg hf]
        exact pipelines_go_params_nil rest c hr

lemma pipelines_go_params : ∀ (item : Item) (c : Nat), (item.map Prod.fst).Nodup →
    (parse_pipelines_go item c).1.2.1 = pipelinesParamsBucket item c
  | [], _, _ => rfl
  | (key, value) :: rest, c, hnodup => by
    have hhead : key ∉ rest.map Prod.fst := by
      have := List.nodup_cons.mp hnodup
      exact this.1
    have htail : (rest.map Prod.fst).Nodup := (List.nodup_cons.mp hnodup).2
    rw [parse_pipelines_go_cons, pipelinesParamsBucket_cons]
    by_cases hp : key = "params"
    · have hr : ∀ q ∈ rest, q.1 ≠ "params" := by
        intro q hq hqp
        apply hhead
        rw [hp, ← hqp]
        exact List.mem_map_of_mem Prod.fst hq
      have hnu : key ≠ "url" := by rw [hp]; decide
      rw [if_neg hnu, if_pos hp, if_pos hp]
      show "--params-file" :: create_temp_yaml c :: (parse_pipelines_go rest (c + 1)).1.2.1 = _
      rw [pipelines_go_params_nil rest (c + 1) hr]
    · rw [if_neg hp, if_neg hp]
      by_cases hu : key = "url"
      · rw [if_pos hu]
        exact pipelines_go_params rest c htail
      · rw [if_neg hu]
        by_cases hf : key = "file-path"
        · rw [if_pos hf]
          exact pipelines_go_params rest c htail
        · rw [if_neg hf]
          exact pipelines_go_params rest c htail

lemma launch_go_repo : ∀ (item : Item) (c : Nat),
    (parse_launch_go item c).1.1 = launchRepoBucket item
  | [], _ => rfl
  | (key, value) :: rest, c => by
    rw [parse_launch_go_cons, launchRepoBucket_cons]
    by_cases hu : key = "pipeline" ∨ key = "url"
    · rw [if_pos hu, if_pos hu]
      show pyStr value :: (parse_launch_go rest c).1.1 = pyStr value :: launchRepoBucket rest
      rw [launch_go_repo rest c]
    · rw [if_neg hu, if_neg hu]
      by_cases hp : key = "params"
      · rw [if_pos hp]
        show (parse_launch_go rest (c + 1)).1.1 = [] ++ launchRepoBucket rest
        rw [launch_go_repo rest (c + 1), List.nil_append]
      · rw [if_neg hp]
        show (parse_launch_go rest c).1.1 = [] ++ launchRepoBucket rest
        rw [launch_go_repo rest c, List.nil_append]

lemma launchRestBucket_counter_irrelevant : ∀ (item : Item) (c c' : Nat),
    (∀ p ∈ item, p.1 ≠ "params") → launchRestBucket item c = launchRestBucket item c'
  | [], _, _, _ => rfl
  | (key, value) :: rest, c, c', h => by
    have hk : key ≠ "params" := h (key, value) (List.mem_cons_self _ _)
    have hr : ∀ q ∈ rest, q.1 ≠ "params" := fun q hq => h q (List.mem_cons_of_mem _ hq)
    rw [launchRestBucket_cons, launchRestBucket_cons,
      launchRestBucket_counter_irrelevant rest c c' hr]
    by_cases hu : key = "pipeline" ∨ key = "url"
    · rw [if_pos hu, if_pos hu]
    · rw [if_neg hu, if_neg hu, if_neg hk, if_neg hk]

lemma launch_go_rest : ∀ (item : Item) (c : Nat), (item.map Prod.fst).Nodup →
    (parse_launch_go item c).1.2 = launchRestBucket item c
  | [], _, _ => rfl
  | (key, value) :: rest, c, hnodup => by
    have hhead : key ∉ rest.map Prod.fst := (List.nodup_cons.mp hnodup).1
    have htail : (rest.map Prod.fst).Nodup := (List.nodup_cons.mp hnodup).2
    rw [parse_launch_go_cons, launchRestBucket_cons]
    by_cases hu : key = "pipeline" ∨ key = "url"
    · rw [if_pos hu, if_pos hu]
      show (parse_launch_go rest c).1.2 = [] ++ launchRestBucket rest c
      rw [launch_go_rest rest c htail, List.nil_append]
    · rw [if_neg hu, if_neg hu]
      by_cases hp : key = "params"
      · have hr : ∀ q ∈ rest, q.1 ≠ "params" := by
          intro q hq hqp
          apply hhead
          rw [hp, ← hqp]
          exact List.mem_map_of_mem Prod.fst hq
        rw [if_pos hp, if_pos hp]
        show "--params-file" :: create_temp_yaml c :: (parse_launch_go rest (c + 1)).1.2 =
          ["--params-file", create_temp_yaml c] ++ launchRestBucket rest c
        rw [launch_go_rest rest (c + 1) htail,
          launchRestBucket_counter_irrelevant rest (c + 1) c hr]
        rfl
      · rw [if_neg hp, if_neg hp]
        show ("--" ++ key) :: pyStr value :: (parse_launch_go rest c).1.2 =
          [("--" ++ key), pyStr value] ++ launchRestBucket rest c
        rw [launch_go_rest rest c htail]
        rfl

/-- C6 (amended): for every `pipelines` item (with its dictionary's
distinct field names), the mapped list is always
positional-repo-args, then the `--params-file` pair, then the
remaining flags, regardless of field order; for every `launch` item
the positional repo arguments come first but the `--params-file` pair
is *not* pulled before the remaining flags — it stays in field order
among them, as the counterexample shows. -/
theorem pipelines_launch_order_amended (item : Item) (c : Nat)
    (hnodup : (item.map Prod.fst).Nodup) :
    (parse_pipelines_block item c).1 =
      pipelinesRepoBucket item ++ pipelinesParamsBucket item c ++ pipelinesFlagsBucket item ∧
    (parse_launch_block item c).1 = launchRepoBucket item ++ launchRestBucket item c := by
  constructor
  · rcases hgo : parse_pipelines_go item c with ⟨⟨r, pa, f⟩, d⟩
    have h1 : r = pipelinesRepoBucket item := by
      have := pipelines_go_repo item c
      rw [hgo] at this
      exact this
    have h2 : pa = pipelinesParamsBucket item c := by
      have := pipelines_go_params item c hnodup
      rw [hgo] at this
      exact this
    have h3 : f = pipelinesFlagsBucket item := by
      have := pipelines_go_flags item c
      rw [hgo] at this
      exact this
    rw [parse_pipelines_block, hgo]
    show r ++ pa ++ f = _
    rw [h1, h2, h3]
  · rcases hgo : parse_launch_go item c with ⟨⟨r, f⟩, d⟩
    have h1 : r = launchRepoBucket item := by
      have := launch_go_repo item c
      rw [hgo] at this
      exact this
    have h2 : f = launchRestBucket item c := by
      have := launch_go_rest item c hnodup
      rw [hgo] at this
      exact this
    rw [parse_launch_block, hgo]
    show r ++ f = _
    rw [h1, h2]

/-- Witness for C6 (amended) on concrete pipelines and launch items
whose fields are deliberately out of order. -/
theorem pipelines_launch_order_amended_witness :
    (parse_pipelines_block
        [("revision", PyValue.str "r"), ("params", PyValue.dict []), ("url", PyValue.str "u")] 0).1 =
      pipelinesRepoBucket
          [("revision", PyValue.str "r"), ("params", PyValue.dict []), ("url", PyValue.str "u")] ++
        pipelinesParamsBucket
          [("revision", PyValue.str "r"), ("params", PyValue.dict []), ("url", PyValue.str "u")] 0 ++
        pipelinesFlagsBucket
          [("revision", PyValue.str "r"), ("params", PyValue.dict []), ("url", PyValue.str "u")] ∧
    (parse_launch_block
        [("revision", PyValue.str "r"), ("params", PyValue.dict []), ("url", PyValue.str "u")] 0).1 =
      launchRepoBucket
          [("revision", PyValue.str "r"), ("params", PyValue.dict []), ("url", PyValue.str "u")] ++
        launchRestBucket
          [("revision", PyValue.str "r"), ("params", PyValue.dict []), ("url", PyValue.str "u")] 0 :=
  pipelines_launch_order_amended
    [("revision", PyValue.str "r"), ("params", PyValue.dict []), ("url", PyValue.str "u")] 0
    (by decide)

/-! ### C5: required fields of the datasets mapper -/

lemma datasetsMappedArgs_cons (key : String) (value : PyValue) (rest : Item)
    (fp n w d : PyValue) :
    datasetsMappedArgs ((key, value) :: rest) fp n w d =
      (if key = "file-path" then
        [pyStr fp, "--name", pyStr n, "--workspace", pyStr w, "--description", pyStr d]
       else if key = "header" then
        (if pyIsTrue value then ["--header"] else [])
       else []) ++ datasetsMappedArgs rest fp n w d := rfl

lemma datasets_go_ok (item : Item) (fp n w d : PyValue)
    (hfp : dictGet item "file-path" = some fp) (hn : dictGet item "name" = some n)
    (hw : dictGet item "workspace" = some w) (hd : dictGet item "description" = some d) :
    ∀ l : Item, parse_datasets_go item l = .ok (datasetsMappedArgs l fp n w d)
  | [] => rfl
  | (key, value) :: rest => by
    have ih := datasets_go_ok item fp n w d hfp hn hw hd rest
    rw [parse_datasets_go, datasetsMappedArgs_cons]
    by_cases hk : key = "file-path"
    · rw [if_pos hk, if_pos hk, hfp, hn, hw, hd, ih]
      rfl
    · rw [if_neg hk, if_neg hk]
      by_cases hh : key = "header"
      · rw [if_pos hh, if_pos hh]
        by_cases hb : pyIsTrue value
        · rw [if_pos hb, if_pos hb, ih]
          rfl
        · rw [if_neg hb, if_neg hb, ih]
          rfl
      · rw [if_neg hh, if_neg hh, ih]
        rfl

lemma datasets_go_error (item : Item)
    (hmiss : dictGet item "name" = Option.none ∨ dictGet item "workspace" = Option.none ∨
      dictGet item "description" = Option.none) :
    ∀ l : Item, (∃ p ∈ l, p.1 = "file-path") → ∃ e, parse_datasets_go item l = .error e
  | [], hin => absurd hin (by simp)
  | (key, value) :: rest, hin => by
    by_cases hk : key = "file-path"
    · rw [parse_datasets_go, if_pos hk]
      cases hfp : dictGet item "file-path" with
      | none => exact ⟨_, rfl⟩
      | some fp =>
        cases hn : dictGet item "name" with
        | none => exact ⟨_, rfl⟩
        | some n =>
          cases hw : dictGet item "workspace" with
          | none => exact ⟨_, rfl⟩
          | some w =>
            cases hd : dictGet item "description" with
            | none => exact ⟨_, rfl⟩
            | some d =>
              rcases hmiss with hm | hm | hm
              · rw [hn] at hm
                exact absurd hm (by simp)
              · rw [hw] at hm
                exact absurd hm (by simp)
              · rw [hd] at hm
                exact absurd hm (by simp)
    · have hrest : ∃ p ∈ rest, p.1 = "file-path" := by
        rcases hin with ⟨p, hp, hp1⟩
        rcases List.mem_cons.mp hp with rfl | hp
        · exact absurd hp1 hk
        · exact ⟨p, hp, hp1⟩
      obtain ⟨e, he⟩ := datasets_go_error item hmiss rest hrest
      rw [parse_datasets_go, if_neg hk]
      by_cases hh : key = "header"
      · rw [if_pos hh]
        by_cases hb : pyIsTrue value
        · rw [if_pos hb]
          exact ⟨e, by rw [he]⟩
        · rw [if_neg hb]
          exact ⟨e, he⟩
      · rw [if_neg hh]
        exact ⟨e, he⟩

/-- C5 (amended): for every datasets item that does contain
`file-path`, mapping fails (with a `KeyError`, the code's form of the
spec's MissingFieldError) whenever any of `name`, `workspace`,
`description` is absent, and succeeds when all four fields are present
— emitting the positional file path plus the three flags in fixed
order at the position of the `file-path` field, with bare `--header`
emitted where a `header: true` field occurs.  When `file-path` itself
is absent, mapping does not fail (the counterexample): it silently
emits no positional group. -/
theorem datasets_required_fields_amended (item : Item) (fp : PyValue)
    (hfp : dictGet item "file-path" = some fp) :
    ((dictGet item "name" = Option.none ∨ dictGet item "workspace" = Option.none ∨
        dictGet item "description" = Option.none) →
      ∃ e, parse_datasets_block item = .error e) ∧
    (∀ n w d, dictGet item "name" = some n → dictGet item "workspace" = some w →
      dictGet item "description" = some d →
      parse_datasets_block item = .ok (datasetsMappedArgs item fp n w d)) := by
  constructor
  · intro hmiss
    exact datasets_go_error item hmiss item ⟨("file-path", fp), dictGet_mem item _ _ hfp, rfl⟩
  · intro n w d hn hw hd
    exact datasets_go_ok item fp n w d hfp hn hw hd item

/-- Witness for C5 (amended) on a complete datasets item whose
`header` field deliberately comes first. -/
theorem datasets_required_fields_amended_witness :
    parse_datasets_block
        [("header", PyValue.bool true), ("file-path", PyValue.str "f"), ("name", PyValue.str "n"),
         ("workspace", PyValue.str "w"), ("description", PyValue.str "d")] =
      .ok (datasetsMappedArgs
        [("header", PyValue.bool true), ("file-path", PyValue.str "f"), ("name", PyValue.str "n"),
         ("workspace", PyValue.str "w"), ("description", PyValue.str "d")]
        (PyValue.str "f") (PyValue.str "n") (PyValue.str "w") (PyValue.str "d")) :=
  (datasets_required_fields_amended
    [("header", PyValue.bool true), ("file-path", PyValue.str "f"), ("name", PyValue.str "n"),
     ("workspace", PyValue.str "w"), ("description", PyValue.str "d")]
    (PyValue.str "f") rfl).2 (PyValue.str "n") (PyValue.str "w") (PyValue.str "d") rfl rfl rfl

/-! ### C10: reverse-mapping is total, key-exact, and last-wins -/

lemma getValue_initValuesAux (seen : List String) : ∀ (keys : List String) (k : String),
    getValue (initValuesAux seen keys) k = Option.none
  | [], _ => rfl
  | j :: rest, k => by
    rw [initValuesAux]
    by_cases hj : j ∈ seen
    · rw [if_pos hj]
      exact getValue_initValuesAux seen rest k
    · rw [if_neg hj]
      show (if j = k then Option.none else getValue (initValuesAux (j :: seen) rest) k) =
        Option.none
      by_cases hk : j = k
      · rw [if_pos hk]
      · rw [if_neg hk]
        exact getValue_initValuesAux (j :: seen) rest k

lemma flagOccPend_cons (k : String) (pend : Option String) (arg : String) (rest : List String) :
    flagOccPend k pend (arg :: rest) =
      match flagOccPend k
          (if pyStartsWith arg "--" then some (pySlice2 arg) else Option.none) rest with
      | some v => some v
      | Option.none =>
        if pyStartsWith arg "--" = false ∧ pend = some k then some arg else Option.none := rfl

lemma gvLoop_getValue (keys : List String) (k : String) (hk : k ∈ keys) (hne : k ≠ "") :
    ∀ (args : List String) (pend : Option String) (vs : Values), k ∈ vs.map Prod.fst →
      getValue (gvLoop keys args pend vs) k = (flagOccPend k pend args).or (getValue vs k)
  | [], pend, vs, _ => by cases pend <;> rfl
  | arg :: rest, pend, vs, hmem => by
    by_cases hf : pyStartsWith arg "--"
    · have h2 : flagOccPend k pend (arg :: rest) = flagOccPend k (some (pySlice2 arg)) rest := by
        rw [flagOccPend_cons, if_pos hf]
        cases hocc : flagOccPend k (some (pySlice2 arg)) rest with
        | some v => rfl
        | none =>
          show (if pyStartsWith arg "--" = false ∧ pend = some k then some arg else Option.none) =
            Option.none
          rw [if_neg]
          rintro ⟨hc, _⟩
          rw [hf] at hc
          exact absurd hc (by decide)
      have h1 : gvLoop keys (arg :: rest) pend vs = gvLoop keys rest (some (pySlice2 arg)) vs := by
        cases pend with
        | none => rw [gvLoop, if_pos hf]
        | some k0 => rw [gvLoop, if_pos hf]
      rw [h1, h2]
      exact gvLoop_getValue keys k hk hne rest _ vs hmem
    · have hff : pyStartsWith arg "--" = false := by simpa using hf
      have h2 : flagOccPend k pend (arg :: rest) =
          match flagOccPend k Option.none rest with
          | some v => some v
          | Option.none => if pend = some k then some arg else Option.none := by
        rw [flagOccPend_cons, if_neg hf]
        cases hocc : flagOccPend k Option.none rest with
        | some v => rfl
        | none =>
          show (if pyStartsWith arg "--" = false ∧ pend = some k then some arg else Option.none) =
            if pend = some k then some arg else Option.none
          by_cases hp : pend = some k
          · rw [if_pos ⟨hff, hp⟩, if_pos hp]
          · rw [if_neg (fun h => hp h.2), if_neg hp]
      cases pend with
      | none =>
        have h1 : gvLoop keys (arg :: rest) Option.none vs = gvLoop keys rest Option.none vs := by
          rw [gvLoop, if_neg hf]
        rw [h1, h2, gvLoop_getValue keys k hk hne rest Option.none vs hmem]
        cases flagOccPend k Option.none rest with
        | some v => rfl
        | none =>
          rw [if_neg (show (Option.none : Option String) ≠ some k by simp)]
      | some k0 =>
        by_cases hkk : k0 = k
        · subst hkk
          have h1 : gvLoop keys (arg :: rest) (some k0) vs =
              gvLoop keys rest Option.none (updateValues vs k0 (some arg)) := by
            rw [gvLoop, if_neg hf, if_pos ⟨hne, hk⟩]
          have hmem' : k0 ∈ (updateValues vs k0 (some arg)).map Prod.fst := by
            rw [updateValues_keys]
            exact hmem
          rw [h1, h2, gvLoop_getValue keys k0 hk hne rest Option.none _ hmem']
          cases flagOccPend k0 Option.none rest with
          | some v => rfl
          | none =>
            rw [if_pos rfl, getValue_updateValues_self vs k0 (some arg) hmem]
            rfl
        · have hgoal : ∀ vs' : Values, k ∈ vs'.map Prod.fst →
              getValue vs' k = getValue vs k →
              gvLoop keys (arg :: rest) (some k0) vs = gvLoop keys rest Option.none vs' →
              getValue (gvLoop keys (arg :: rest) (some k0) vs) k =
                (flagOccPend k (some k0) (arg :: rest)).or (getValue vs k) := by
            intro vs' hmem' hval h1
            rw [h1, h2, gvLoop_getValue keys k hk hne rest Option.none vs' hmem']
            cases flagOccPend k Option.none rest with
            | some v => rfl
            | none =>
              rw [if_neg (fun hc => hkk (Option.some.inj hc)), hval]
          by_cases hc0 : k0 ≠ "" ∧ k0 ∈ keys
          · refine hgoal (updateValues vs k0 (some arg)) ?_ ?_ ?_
            · rw [updateValues_keys]
              exact hmem
            · exact getValue_updateValues_ne vs k0 k (some arg) (fun h => hkk h.symm)
            · rw [gvLoop, if_neg hf, if_pos hc0]
          · refine hgoal vs hmem rfl ?_
            rw [gvLoop, if_neg hf, if_neg hc0]

lemma get_values_spec (args keys : List String) (k : String) (hk : k ∈ keys) (hne : k ≠ "") :
    getValue (get_values_from_cmd_args args keys) k = flagOccPend k Option.none args := by
  rw [get_values_from_cmd_args,
    gvLoop_getValue keys k hk hne args Option.none (initValues keys)
      (by rw [initValues_keys]; exact hk),
    initValues, getValue_initValuesAux]
  cases flagOccPend k Option.none args with
  | some v => rfl
  | none => rfl

/-- C10 (amended): `get_values_from_cmd_args` is total by construction
and key-exact — the returned dictionary's key set is exactly the set
of requested keys — and for every requested *non-empty* key the
recovered value is the token following the last occurrence of `--key`
that is immediately followed by a non-flag token (`None` when there is
no such occurrence).  The empty requested key is the one exception
(the counterexample): Python's truthiness test drops it. -/
theorem get_values_total_amended (args keys : List String) (k : String)
    (hk : k ∈ keys) (hne : k ≠ "") :
    ((get_values_from_cmd_args args keys).map Prod.fst).toFinset = keys.toFinset ∧
    getValue (get_values_from_cmd_args args keys) k = flagOccPend k Option.none args := by
  constructor
  · apply Finset.ext
    intro j
    rw [List.mem_toFinset, List.mem_toFinset, get_values_keys, initValues_keys]
  · exact get_values_spec args keys k hk hne

/-- Witness for C10 (amended) on arguments with a stray positional
token, a repeated `--name` flag, and a trailing value-less flag. -/
theorem get_values_total_amended_witness :
    ((get_values_from_cmd_args ["--name", "a", "x", "--name", "b", "--workspace"]
        ["name", "workspace"]).map Prod.fst).toFinset =
      (["name", "workspace"] : List String).toFinset ∧
    getValue (get_values_from_cmd_args ["--name", "a", "x", "--name", "b", "--workspace"]
        ["name", "workspace"]) "name" =
      flagOccPend "name" Option.none ["--name", "a", "x", "--name", "b", "--workspace"] :=
  get_values_total_amended ["--name", "a", "x", "--name", "b", "--workspace"]
    ["name", "workspace"] "name" (by decide) (by decide)

/-! ### C8: reverse-mapping recovers the deletion-policy keys -/

lemma cleanTok_of_not_flag (k a : String) (h : pyStartsWith a "--" = false) :
    ¬(pyStartsWith a "--" = true ∧ pySlice2 a = k) := by
  rintro ⟨hc, _⟩
  rw [h] at hc
  exact absurd hc (by decide)

lemma cleanTok_flag (k j : String) (h : j ≠ k) :
    ¬(pyStartsWith ("--" ++ j) "--" = true ∧ pySlice2 ("--" ++ j) = k) := by
  rintro ⟨_, hc⟩
  rw [slice2_dashdash] at hc
  exact h hc

lemma flagOccPend_clean_chunk (k : String) (res : Option String) :
    ∀ (seg rest : List String),
    (∀ a ∈ seg, ¬(pyStartsWith a "--" = true ∧ pySlice2 a = k)) →
    (∀ pend, pend ≠ some k → flagOccPend k pend rest = res) →
    ∀ (pend : Option String), pend ≠ some k → flagOccPend k pend (seg ++ rest) = res
  | [], rest, _, hrest, pend, hp => hrest pend hp
  | a :: seg', rest, h, hrest, pend, hp => by
    have ha := h a (List.mem_cons_self _ _)
    have h' : ∀ b ∈ seg', ¬(pyStartsWith b "--" = true ∧ pySlice2 b = k) :=
      fun b hb => h b (List.mem_cons_of_mem _ hb)
    show flagOccPend k pend (a :: (seg' ++ rest)) = res
    rw [flagOccPend_cons]
    have hnp : (if pyStartsWith a "--" then some (pySlice2 a) else Option.none) ≠ some k := by
      by_cases hfa : pyStartsWith a "--"
      · rw [if_pos hfa]
        intro hc
        exact ha ⟨hfa, Option.some.inj hc⟩
      · rw [if_neg hfa]
        simp
    rw [flagOccPend_clean_chunk k res seg' rest h' hrest _ hnp]
    cases res with
    | some v => rfl
    | none => rw [if_neg (fun hg => hp hg.2)]

lemma revChunks_flagOcc {k : String} {out : List String} {res : Option String}
    (h : RevChunks k out res) :
    ∀ pend, pend ≠ some k → flagOccPend k pend out = res := by
  induction h with
  | nil => intro pend _; rfl
  | hit v rest hv hrest ih =>
    intro pend _
    rw [flagOccPend_cons, if_pos (startsWith_dashdash k), slice2_dashdash]
    have hinner : flagOccPend k (some k) (v :: rest) = some v := by
      rw [flagOccPend_cons]
      have hnp : (if pyStartsWith v "--" then some (pySlice2 v) else Option.none) =
          Option.none := by
        rw [if_neg]
        intro hc
        rw [hv] at hc
        exact absurd hc (by decide)
      rw [hnp, ih Option.none (by simp)]
      rw [if_pos ⟨hv, rfl⟩]
    rw [hinner]
  | clean seg rest res' hseg hrest ih =>
    exact flagOccPend_clean_chunk k res' seg rest hseg ih

lemma revChunks_none (k : String) (out : List String)
    (h : ∀ a ∈ out, ¬(pyStartsWith a "--" = true ∧ pySlice2 a = k)) :
    RevChunks k out Option.none := by
  have := RevChunks.clean out [] Option.none h RevChunks.nil
  simpa using this

lemma flatMap_congr {α β : Type} (f g : α → List β) : ∀ (l : List α),
    (∀ a ∈ l, f a = g a) → l.flatMap f = l.flatMap g
  | [], _ => rfl
  | a :: l, h => by
    rw [List.flatMap_cons, List.flatMap_cons, h a (List.mem_cons_self _ _),
      flatMap_congr f g l (fun b hb => h b (List.mem_cons_of_mem _ hb))]

lemma nodup_value_unique : ∀ (item : Item), (item.map Prod.fst).Nodup →
    ∀ (k : String) (v : PyValue), dictGet item k = some v →
    ∀ p ∈ item, p.1 = k → p.2 = v
  | [], _, _, _, _, p, hp, _ => absurd hp (by simp)
  | (key, value) :: rest, hnodup, k, v, hkv, p, hp, hpk => by
    have hhead : key ∉ rest.map Prod.fst := (List.nodup_cons.mp hnodup).1
    have htail := (List.nodup_cons.mp hnodup).2
    by_cases hkey : key = k
    · subst hkey
      have hv : value = v := by
        rw [dictGet, assocGet, if_pos rfl] at hkv
        exact Option.some.inj hkv
      rcases List.mem_cons.mp hp with rfl | hp
      · exact hv
      · exact absurd (hpk ▸ List.mem_map_of_mem Prod.fst hp) hhead
    · have hkv' : dictGet rest k = some v := by
        rw [dictGet, assocGet, if_neg hkey] at hkv
        exact hkv
      rcases List.mem_cons.mp hp with rfl | hp
      · exact absurd hpk hkey
      · exact nodup_value_unique rest htail k v hkv' p hp hpk

lemma revChunks_flatMap_none (k : String) (f : String × PyValue → List String) :
    ∀ (item : Item),
    (∀ p ∈ item, ∀ a ∈ f p, ¬(pyStartsWith a "--" = true ∧ pySlice2 a = k)) →
    RevChunks k (item.flatMap f) Option.none
  | [], _ => RevChunks.nil
  | p :: rest, h =>
    RevChunks.clean (f p) (rest.flatMap f) Option.none
      (h p (List.mem_cons_self _ _))
      (revChunks_flatMap_none k f rest (fun q hq => h q (List.mem_cons_of_mem _ hq)))

lemma revChunks_flatMap_hit_at (k hkey : String) (v : String)
    (f : String × PyValue → List String) (pre post : List String)
    (hpre : ∀ a ∈ pre, ¬(pyStartsWith a "--" = true ∧ pySlice2 a = k))
    (hpost : ∀ a ∈ post, ¬(pyStartsWith a "--" = true ∧ pySlice2 a = k))
    (hv : pyStartsWith v "--" = false) :
    ∀ (item : Item), (item.map Prod.fst).Nodup →
    (∀ p ∈ item, p.1 = hkey → f p = pre ++ ("--" ++ k) :: v :: post) →
    (∀ p ∈ item, p.1 ≠ hkey → ∀ a ∈ f p, ¬(pyStartsWith a "--" = true ∧ pySlice2 a = k)) →
    (∃ p ∈ item, p.1 = hkey) →
    RevChunks k (item.flatMap f) (some v)
  | [], _, _, _, hex => absurd hex (by simp)
  | p :: rest, hnodup, hf, hclean, hex => by
    have hhead : p.1 ∉ rest.map Prod.fst := (List.nodup_cons.mp hnodup).1
    have htail := (List.nodup_cons.mp hnodup).2
    by_cases hp : p.1 = hkey
    · have hrestclean : ∀ q ∈ rest, ∀ a ∈ f q,
          ¬(pyStartsWith a "--" = true ∧ pySlice2 a = k) := by
        intro q hq
        apply hclean q (List.mem_cons_of_mem _ hq)
        intro hq1
        apply hhead
        rw [hp, ← hq1]
        exact List.mem_map_of_mem Prod.fst hq
      have hnone : RevChunks k (post ++ rest.flatMap f) Option.none :=
        RevChunks.clean post (rest.flatMap f) Option.none hpost
          (revChunks_flatMap_none k f rest hrestclean)
      have hshape : (p :: rest).flatMap f =
          pre ++ ("--" ++ k) :: v :: (post ++ rest.flatMap f) := by
        rw [List.flatMap_cons, hf p (List.mem_cons_self _ _) hp, List.append_assoc]
        rfl
      rw [hshape]
      exact RevChunks.clean pre _ _ hpre (RevChunks.hit v _ hv hnone)
    · have hex' : ∃ q ∈ rest, q.1 = hkey := by
        rcases hex with ⟨q, hq, hq1⟩
        rcases List.mem_cons.mp hq with rfl | hq
        · exact absurd hq1 hp
        · exact ⟨q, hq, hq1⟩
      exact RevChunks.clean (f p) (rest.flatMap f) (some v)
        (hclean p (List.mem_cons_self _ _) hp)
        (revChunks_flatMap_hit_at k hkey v f pre post hpre hpost hv rest htail
          (fun q hq => hf q (List.mem_cons_of_mem _ hq))
          (fun q hq => hclean q (List.mem_cons_of_mem _ hq)) hex')

lemma parse_generic_block_eq : ∀ (item : Item),
    parse_generic_block item = item.flatMap (fun p => [("--" ++ p.1), pyStr p.2])
  | [] => rfl
  | (key, value) :: rest => by
    rw [parse_generic_block, parse_generic_block_eq rest, List.flatMap_cons]
    rfl

lemma parse_credentials_block_eq : ∀ (item : Item),
    parse_credentials_block item =
      item.flatMap (fun p => if p.1 = "type" then [pyStr p.2] else [("--" ++ p.1), pyStr p.2])
  | [] => rfl
  | (key, value) :: rest => by
    rw [parse_credentials_block, parse_credentials_block_eq rest, List.flatMap_cons]
    by_cases ht : key = "type"
    · rw [if_pos ht, if_pos ht]
      rfl
    · rw [if_neg ht, if_neg ht]
      rfl

lemma parse_compute_envs_block_eq : ∀ (item : Item),
    parse_compute_envs_block item =
      item.flatMap (fun p =>
        if p.1 = "file-path" then [pyStr p.2] else [("--" ++ p.1), pyStr p.2])
  | [] => rfl
  | (key, value) :: rest => by
    rw [parse_compute_envs_block, parse_compute_envs_block_eq rest, List.flatMap_cons]
    by_cases ht : key = "file-path"
    · rw [if_pos ht, if_pos ht]
      rfl
    · rw [if_neg ht, if_neg ht]
      rfl

lemma parse_actions_block_eq : ∀ (item : Item) (c : Nat), (item.map Prod.fst).Nodup →
    (parse_actions_block item c).1 = item.flatMap (fun p =>
      if p.1 = "type" then [pyStr p.2]
      else if p.1 = "params" then ["--params-file", create_temp_yaml c]
      else [("--" ++ p.1), pyStr p.2])
  | [], _, _ => rfl
  | (key, value) :: rest, c, hnodup => by
    have hhead : key ∉ rest.map Prod.fst := (List.nodup_cons.mp hnodup).1
    have htail := (List.nodup_cons.mp hnodup).2
    rw [parse_actions_cons, List.flatMap_cons]
    by_cases ht : key = "type"
    · rw [if_pos ht, if_pos ht]
      show pyStr value :: (parse_actions_block rest c).1 = [pyStr value] ++ _
      rw [parse_actions_block_eq rest c htail]
      rfl
    · rw [if_neg ht, if_neg ht]
      by_cases hpp : key = "params"
      · rw [if_pos hpp, if_pos hpp]
        show "--params-file" :: create_temp_yaml c :: (parse_actions_block rest (c + 1)).1 =
          ["--params-file", create_temp_yaml c] ++ _
        rw [parse_actions_block_eq rest (c + 1) htail]
        have hnp : ∀ q ∈ rest, q.1 ≠ "params" := by
          intro q hq hq1
          apply hhead
          rw [hpp, ← hq1]
          exact List.mem_map_of_mem Prod.fst hq
        have hcongr : rest.flatMap (fun p =>
            if p.1 = "type" then [pyStr p.2]
            else if p.1 = "params" then ["--params-file", create_temp_yaml (c + 1)]
            else [("--" ++ p.1), pyStr p.2]) = rest.flatMap (fun p =>
            if p.1 = "type" then [pyStr p.2]
            else if p.1 = "params" then ["--params-file", create_temp_yaml c]
            else [("--" ++ p.1), pyStr p.2]) := by
          apply flatMap_congr
          intro q hq
          by_cases hqt : q.1 = "type"
          · rw [if_pos hqt, if_pos hqt]
          · rw [if_neg hqt, if_neg hqt, if_neg (hnp q hq), if_neg (hnp q hq)]
        rw [hcongr]
        rfl
      · rw [if_neg hpp, if_neg hpp]
        show ("--" ++ key) :: pyStr value :: (parse_actions_block rest c).1 = _
        rw [parse_actions_block_eq rest c htail]
        rfl

lemma parse_teams_go_cmd : ∀ (item l : Item) (cmd : List String)
    (members : List (List String)), parse_teams_go item l = .ok (cmd, members) →
    cmd = l.flatMap (fun p =>
      if p.1 = "name" ∨ p.1 = "organization" ∨ p.1 = "description"
      then [("--" ++ p.1), pyStr p.2] else [])
  | _, [], cmd, members, h => by
    rw [parse_teams_go] at h
    simp only [Except.ok.injEq, Prod.mk.injEq] at h
    rw [← h.1]
    rfl
  | item, (key, value) :: rest, cmd, members, h => by
    rw [parse_teams_go] at h
    rw [List.flatMap_cons]
    by_cases hc : key = "name" ∨ key = "organization" ∨ key = "description"
    · rw [if_pos hc] at h
      rw [if_pos hc]
      cases hrec : parse_teams_go item rest with
      | error e =>
        rw [hrec] at h
        exact absurd h (by simp)
      | ok pr =>
        obtain ⟨cmd', members'⟩ := pr
        rw [hrec] at h
        simp only [Except.ok.injEq, Prod.mk.injEq] at h
        rw [← h.1, parse_teams_go_cmd item rest cmd' members' hrec]
        rfl
    · rw [if_neg hc] at h
      rw [if_neg hc]
      by_cases hm : key = "members"
      · rw [if_pos hm] at h
        cases hit : pyIter value with
        | error e =>
          rw [hit] at h
          exact absurd h (by simp)
        | ok ms =>
          rw [hit] at h
          cases ms with
          | nil =>
            rw [parse_teams_go_cmd item rest cmd members h]
            rfl
          | cons m ms' =>
            cases hn : dictGet item "name" with
            | none =>
              rw [hn] at h
              exact absurd h (by simp)
            | some nv =>
              rw [hn] at h
              cases ho : dictGet item "organization" with
              | none =>
                rw [ho] at h
                exact absurd h (by simp)
              | some ov =>
                rw [ho] at h
                cases hrec : parse_teams_go item rest with
                | error e =>
                  rw [hrec] at h
                  exact absurd h (by simp)
                | ok pr =>
                  obtain ⟨cmd', members'⟩ := pr
                  rw [hrec] at h
                  simp only [Except.ok.injEq, Prod.mk.injEq] at h
                  rw [← h.1, parse_teams_go_cmd item rest cmd' members' hrec]
                  rfl
      · rw [if_neg hm] at h
        rw [parse_teams_go_cmd item rest cmd members h]
        rfl

lemma dictGet_eraseP (item : Item) (k : String) (hk : k ≠ "overwrite") :
    dictGet (item.eraseP (fun p => p.1 == "overwrite")) k = dictGet item k := by
  induction item with
  | nil => rfl
  | cons p rest ih =>
    by_cases ho : p.1 = "overwrite"
    · have hb : (p.1 == "overwrite") = true := beq_iff_eq.mpr ho
      rw [List.eraseP_cons, hb, cond_true]
      show assocGet rest k = assocGet (p :: rest) k
      rw [assocGet, if_neg (fun hc : p.1 = k => hk (hc ▸ ho))]
    · have hb : (p.1 == "overwrite") = false := beq_eq_false_iff_ne.mpr ho
      rw [List.eraseP_cons, hb, cond_false]
      show (if p.1 = k then some p.2 else assocGet (rest.eraseP (fun p => p.1 == "overwrite")) k) =
        (if p.1 = k then some p.2 else assocGet rest k)
      by_cases hpk : p.1 = k
      · rw [if_pos hpk, if_pos hpk]
      · rw [if_neg hpk, if_neg hpk]
        exact ih

lemma eraseP_keys_no_overwrite : ∀ (item : Item), (item.map Prod.fst).Nodup →
    ∀ p ∈ item.eraseP (fun q => q.1 == "overwrite"), p.1 ≠ "overwrite"
  | [], _, p, hp => absurd hp (by simp)
  | q :: rest, hnodup, p, hp => by
    have hhead : q.1 ∉ rest.map Prod.fst := (List.nodup_cons.mp hnodup).1
    have htail := (List.nodup_cons.mp hnodup).2
    rw [List.eraseP_cons] at hp
    by_cases ho : q.1 = "overwrite"
    · rw [beq_iff_eq.mpr ho, cond_true] at hp
      intro hpov
      apply hhead
      rw [ho, ← hpov]
      exact List.mem_map_of_mem Prod.fst hp
    · rw [beq_eq_false_iff_ne.mpr ho, cond_false] at hp
      rcases List.mem_cons.mp hp with rfl | hp
      · exact ho
      · exact eraseP_keys_no_overwrite rest htail p hp

lemma eraseP_nodup (item : Item) (hnodup : (item.map Prod.fst).Nodup) :
    ((item.eraseP (fun q => q.1 == "overwrite")).map Prod.fst).Nodup :=
  hnodup.sublist ((List.eraseP_sublist item).map Prod.fst)

lemma reverse_args_of_generic (block : String) (item : Item) (c : Nat)
    (h : block = "organizations" ∨ block = "participants" ∨ block = "workspaces" ∨
      block = "secrets") :
    reverse_args_of block item c =
      .ok (parse_generic_block (item.eraseP (fun p => p.1 == "overwrite"))) := by
  rcases h with rfl | rfl | rfl | rfl <;> rfl

lemma reverse_args_of_credentials (item : Item) (c : Nat) :
    reverse_args_of "credentials" item c =
      .ok (parse_credentials_block (item.eraseP (fun p => p.1 == "overwrite"))) := rfl

lemma reverse_args_of_compute_envs (item : Item) (c : Nat) :
    reverse_args_of "compute-envs" item c =
      .ok (parse_compute_envs_block (item.eraseP (fun p => p.1 == "overwrite"))) := rfl

lemma reverse_args_of_actions (item : Item) (c : Nat) :
    reverse_args_of "actions" item c =
      .ok ((parse_actions_block (item.eraseP (fun p => p.1 == "overwrite")) c).1) := by
  rcases h : parse_actions_block (item.eraseP (fun p => p.1 == "overwrite")) c with ⟨a, d⟩
  simp [reverse_args_of, parse_block, h]

lemma reverse_args_of_pipelines (item : Item) (c : Nat) :
    reverse_args_of "pipelines" item c =
      .ok ((parse_pipelines_block (item.eraseP (fun p => p.1 == "overwrite")) c).1) := by
  rcases h : parse_pipelines_block (item.eraseP (fun p => p.1 == "overwrite")) c with ⟨a, d⟩
  simp [reverse_args_of, parse_block, h]

lemma reverse_args_of_teams (item : Item) (c : Nat) (cmd : List String)
    (members : List (List String))
    (h : parse_teams_block (item.eraseP (fun p => p.1 == "overwrite")) = .ok (cmd, members)) :
    reverse_args_of "teams" item c = .ok cmd := by
  simp [reverse_args_of, parse_block, h]

lemma reverse_args_of_teams_error (item : Item) (c : Nat) (e : PyErr)
    (h : parse_teams_block (item.eraseP (fun p => p.1 == "overwrite")) = .error e) :
    reverse_args_of "teams" item c = .error e := by
  simp [reverse_args_of, parse_block, h]

lemma reverse_args_of_datasets (item : Item) (c : Nat) (args : List String)
    (h : parse_datasets_block (item.eraseP (fun p => p.1 == "overwrite")) = .ok args) :
    reverse_args_of "datasets" item c = .ok args := by
  simp [reverse_args_of, parse_block, h]

lemma reverse_args_of_datasets_error (item : Item) (c : Nat) (e : PyErr)
    (h : parse_datasets_block (item.eraseP (fun p => p.1 == "overwrite")) = .error e) :
    reverse_args_of "datasets" item c = .error e := by
  simp [reverse_args_of, parse_block, h]

lemma revChunks_generic_hit (k : String) (v : PyValue) (item2 : Item)
    (hnodup : (item2.map Prod.fst).Nodup)
    (hvals : ∀ p ∈ item2, pyStartsWith (pyStr p.2) "--" = false)
    (hkv : dictGet item2 k = some v) :
    RevChunks k (parse_generic_block item2) (some (pyStr v)) := by
  rw [parse_generic_block_eq]
  refine revChunks_flatMap_hit_at k k (pyStr v) _ [] [] (by simp) (by simp)
    (hvals _ (dictGet_mem item2 k v hkv)) item2 hnodup ?_ ?_
    ⟨(k, v), dictGet_mem item2 k v hkv, rfl⟩
  · intro p hp hpk
    have hv2 := nodup_value_unique item2 hnodup k v hkv p hp hpk
    rw [hpk, hv2]
    rfl
  · intro p hp hpk a ha
    rcases List.mem_cons.mp ha with rfl | ha
    · exact cleanTok_flag k p.1 hpk
    · rw [List.mem_singleton] at ha
      subst ha
      exact cleanTok_of_not_flag k _ (hvals p hp)

lemma revChunks_credentials_hit (k : String) (v : PyValue) (item2 : Item)
    (hnodup : (item2.map Prod.fst).Nodup)
    (hvals : ∀ p ∈ item2, pyStartsWith (pyStr p.2) "--" = false)
    (hktype : k ≠ "type")
    (hkv : dictGet item2 k = some v) :
    RevChunks k (parse_credentials_block item2) (some (pyStr v)) := by
  rw [parse_credentials_block_eq]
  refine revChunks_flatMap_hit_at k k (pyStr v) _ [] [] (by simp) (by simp)
    (hvals _ (dictGet_mem item2 k v hkv)) item2 hnodup ?_ ?_
    ⟨(k, v), dictGet_mem item2 k v hkv, rfl⟩
  · intro p hp hpk
    have hv2 := nodup_value_unique item2 hnodup k v hkv p hp hpk
    rw [if_neg (fun hc : p.1 = "type" => hktype (hpk ▸ hc)), hpk, hv2]
    rfl
  · intro p hp hpk a ha
    by_cases ht : p.1 = "type"
    · rw [if_pos ht] at ha
      rw [List.mem_singleton] at ha
      subst ha
      exact cleanTok_of_not_flag k _ (hvals p hp)
    · rw [if_neg ht] at ha
      rcases List.mem_cons.mp ha with rfl | ha
      · exact cleanTok_flag k p.1 hpk
      · rw [List.mem_singleton] at ha
        subst ha
        exact cleanTok_of_not_flag k _ (hvals p hp)

lemma revChunks_compute_envs_hit (k : String) (v : PyValue) (item2 : Item)
    (hnodup : (item2.map Prod.fst).Nodup)
    (hvals : ∀ p ∈ item2, pyStartsWith (pyStr p.2) "--" = false)
    (hkfp : k ≠ "file-path")
    (hkv : dictGet item2 k = some v) :
    RevChunks k (parse_compute_envs_block item2) (some (pyStr v)) := by
  rw [parse_compute_envs_block_eq]
  refine revChunks_flatMap_hit_at k k (pyStr v) _ [] [] (by simp) (by simp)
    (hvals _ (dictGet_mem item2 k v hkv)) item2 hnodup ?_ ?_
    ⟨(k, v), dictGet_mem item2 k v hkv, rfl⟩
  · intro p hp hpk
    have hv2 := nodup_value_unique item2 hnodup k v hkv p hp hpk
    rw [if_neg (fun hc : p.1 = "file-path" => hkfp (hpk ▸ hc)), hpk, hv2]
    rfl
  · intro p hp hpk a ha
    by_cases ht : p.1 = "file-path"
    · rw [if_pos ht] at ha
      rw [List.mem_singleton] at ha
      subst ha
      exact cleanTok_of_not_flag k _ (hvals p hp)
    · rw [if_neg ht] at ha
      rcases List.mem_cons.mp ha with rfl | ha
      · exact cleanTok_flag k p.1 hpk
      · rw [List.mem_singleton] at ha
        subst ha
        exact cleanTok_of_not_flag k _ (hvals p hp)

lemma revChunks_actions_hit (k : String) (v : PyValue) (item2 : Item) (c : Nat)
    (hnodup : (item2.map Prod.fst).Nodup)
    (hvals : ∀ p ∈ item2, pyStartsWith (pyStr p.2) "--" = false)
    (hk1 : k ≠ "type") (hk2 : k ≠ "params") (hk3 : "params-file" ≠ k)
    (hkv : dictGet item2 k = some v) :
    RevChunks k ((parse_actions_block item2 c).1) (some (pyStr v)) := by
  rw [parse_actions_block_eq item2 c hnodup]
  refine revChunks_flatMap_hit_at k k (pyStr v) _ [] [] (by simp) (by simp)
    (hvals _ (dictGet_mem item2 k v hkv)) item2 hnodup ?_ ?_
    ⟨(k, v), dictGet_mem item2 k v hkv, rfl⟩
  · intro p hp hpk
    have hv2 := nodup_value_unique item2 hnodup k v hkv p hp hpk
    rw [if_neg (fun hc : p.1 = "type" => hk1 (hpk ▸ hc)),
      if_neg (fun hc : p.1 = "params" => hk2 (hpk ▸ hc)), hpk, hv2]
    rfl
  · intro p hp hpk a ha
    by_cases ht : p.1 = "type"
    · rw [if_pos ht] at ha
      rw [List.mem_singleton] at ha
      subst ha
      exact cleanTok_of_not_flag k _ (hvals p hp)
    · rw [if_neg ht] at ha
      by_cases hpp : p.1 = "params"
      · rw [if_pos hpp] at ha
        rcases List.mem_cons.mp ha with rfl | ha
        · exact cleanTok_flag k "params-file" hk3
        · rw [List.mem_singleton] at ha
          subst ha
          exact cleanTok_of_not_flag k _ (temp_not_flag c)
      · rw [if_neg hpp] at ha
        rcases List.mem_cons.mp ha with rfl | ha
        · exact cleanTok_flag k p.1 hpk
        · rw [List.mem_singleton] at ha
          subst ha
          exact cleanTok_of_not_flag k _ (hvals p hp)

lemma revChunks_teams_hit (k : String) (v : PyValue) (item2 : Item)
    (hnodup : (item2.map Prod.fst).Nodup)
    (hvals : ∀ p ∈ item2, pyStartsWith (pyStr p.2) "--" = false)
    (hkcmd : k = "name" ∨ k = "organization" ∨ k = "description")
    (hkv : dictGet item2 k = some v)
    (cmd : List String) (members : List (List String))
    (hok : parse_teams_block item2 = .ok (cmd, members)) :
    RevChunks k cmd (some (pyStr v)) := by
  rw [parse_teams_go_cmd item2 item2 cmd members hok]
  refine revChunks_flatMap_hit_at k k (pyStr v) _ [] [] (by simp) (by simp)
    (hvals _ (dictGet_mem item2 k v hkv)) item2 hnodup ?_ ?_
    ⟨(k, v), dictGet_mem item2 k v hkv, rfl⟩
  · intro p hp hpk
    have hv2 := nodup_value_unique item2 hnodup k v hkv p hp hpk
    rw [if_pos (by rw [hpk]; exact hkcmd), hpk, hv2]
    rfl
  · intro p hp hpk a ha
    by_cases hc : p.1 = "name" ∨ p.1 = "organization" ∨ p.1 = "description"
    · rw [if_pos hc] at ha
      rcases List.mem_cons.mp ha with rfl | ha
      · exact cleanTok_flag k p.1 hpk
      · rw [List.mem_singleton] at ha
        subst ha
        exact cleanTok_of_not_flag k _ (hvals p hp)
    · rw [if_neg hc] at ha
      exact absurd ha (by simp)

lemma pipelinesRepoBucket_tokens (item : Item) (a : String)
    (ha : a ∈ pipelinesRepoBucket item) : ∃ p ∈ item, a = pyStr p.2 := by
  rw [pipelinesRepoBucket, List.mem_flatMap] at ha
  obtain ⟨p, hp, hap⟩ := ha
  by_cases hc : p.1 = "url" ∨ p.1 = "file-path"
  · rw [if_pos hc] at hap
    rw [List.mem_singleton] at hap
    exact ⟨p, hp, hap⟩
  · rw [if_neg hc] at hap
    exact absurd hap (by simp)

lemma revChunks_pipelines_hit (k : String) (v : PyValue) (item2 : Item) (c : Nat)
    (hnodup : (item2.map Prod.fst).Nodup)
    (hvals : ∀ p ∈ item2, pyStartsWith (pyStr p.2) "--" = false)
    (hk1 : k ≠ "url") (hk2 : k ≠ "file-path") (hk3 : k ≠ "params")
    (hk4 : "params-file" ≠ k)
    (hkv : dictGet item2 k = some v) :
    RevChunks k ((parse_pipelines_block item2 c).1) (some (pyStr v)) := by
  rcases hgo : parse_pipelines_go item2 c with ⟨⟨r, pa, f⟩, d⟩
  have h1 : r = pipelinesRepoBucket item2 := by
    have := pipelines_go_repo item2 c
    rw [hgo] at this
    exact this
  have h2 : pa = pipelinesParamsBucket item2 c := by
    have := pipelines_go_params item2 c hnodup
    rw [hgo] at this
    exact this
  have h3 : f = pipelinesFlagsBucket item2 := by
    have := pipelines_go_flags item2 c
    rw [hgo] at this
    exact this
  have hblockeq : (parse_pipelines_block item2 c).1 =
      (pipelinesRepoBucket item2 ++ pipelinesParamsBucket item2 c) ++
        pipelinesFlagsBucket item2 := by
    rw [parse_pipelines_block, hgo]
    show r ++ pa ++ f = _
    rw [h1, h2, h3]
  rw [hblockeq]
  refine RevChunks.clean _ _ _ ?_ ?_
  · intro a ha
    rcases List.mem_append.mp ha with ha | ha
    · obtain ⟨p, hp, rfl⟩ := pipelinesRepoBucket_tokens item2 a ha
      exact cleanTok_of_not_flag k _ (hvals p hp)
    · rw [pipelinesParamsBucket] at ha
      cases hdg : dictGet item2 "params" with
      | none =>
        rw [hdg] at ha
        exact absurd ha (by simp)
      | some pv =>
        rw [hdg] at ha
        rcases List.mem_cons.mp ha with rfl | ha
        · exact cleanTok_flag k "params-file" hk4
        · rw [List.mem_singleton] at ha
          subst ha
          exact cleanTok_of_not_flag k _ (temp_not_flag c)
  · rw [pipelinesFlagsBucket]
    refine revChunks_flatMap_hit_at k k (pyStr v) _ [] [] (by simp) (by simp)
      (hvals _ (dictGet_mem item2 k v hkv)) item2 hnodup ?_ ?_
      ⟨(k, v), dictGet_mem item2 k v hkv, rfl⟩
    · intro p hp hpk
      have hv2 := nodup_value_unique item2 hnodup k v hkv p hp hpk
      have hcond : ¬(p.1 = "url" ∨ p.1 = "file-path" ∨ p.1 = "params") := by
        rw [hpk]
        rintro (hc | hc | hc)
        exacts [hk1 hc, hk2 hc, hk3 hc]
      rw [if_neg hcond, hpk, hv2]
      rfl
    · intro p hp hpk a ha
      by_cases hcond : p.1 = "url" ∨ p.1 = "file-path" ∨ p.1 = "params"
      · rw [if_pos hcond] at ha
        exact absurd ha (by simp)
      · rw [if_neg hcond] at ha
        rcases List.mem_cons.mp ha with rfl | ha
        · exact cleanTok_flag k p.1 hpk
        · rw [List.mem_singleton] at ha
          subst ha
          exact cleanTok_of_not_flag k _ (hvals p hp)

lemma revChunks_datasets_hit (k : String) (item2 : Item) (fp n w d target : PyValue)
    (hnodup : (item2.map Prod.fst).Nodup)
    (hvals : ∀ p ∈ item2, pyStartsWith (pyStr p.2) "--" = false)
    (hsel : (k = "name" ∧ n = target) ∨ (k = "workspace" ∧ w = target))
    (hfp : dictGet item2 "file-path" = some fp)
    (hn : dictGet item2 "name" = some n) (hw : dictGet item2 "workspace" = some w)
    (hd : dictGet item2 "description" = some d) :
    RevChunks k (datasetsMappedArgs item2 fp n w d) (some (pyStr target)) := by
  have hfpn : pyStartsWith (pyStr fp) "--" = false := hvals _ (dictGet_mem _ _ _ hfp)
  have hnn : pyStartsWith (pyStr n) "--" = false := hvals _ (dictGet_mem _ _ _ hn)
  have hwn : pyStartsWith (pyStr w) "--" = false := hvals _ (dictGet_mem _ _ _ hw)
  have hdn : pyStartsWith (pyStr d) "--" = false := hvals _ (dictGet_mem _ _ _ hd)
  have hexfp : ∃ p ∈ item2, p.1 = "file-path" :=
    ⟨("file-path", fp), dictGet_mem _ _ _ hfp, rfl⟩
  rw [datasetsMappedArgs]
  rcases hsel with ⟨rfl, rfl⟩ | ⟨rfl, rfl⟩
  · refine revChunks_flatMap_hit_at "name" "file-path" (pyStr n) _
      [pyStr fp] ["--workspace", pyStr w, "--description", pyStr d]
      ?_ ?_ hnn item2 hnodup ?_ ?_ hexfp
    · intro a ha
      rw [List.mem_singleton] at ha
      subst ha
      exact cleanTok_of_not_flag _ _ hfpn
    · intro a ha
      rcases List.mem_cons.mp ha with rfl | ha
      · exact cleanTok_flag "name" "workspace" (by decide)
      rcases List.mem_cons.mp ha with rfl | ha
      · exact cleanTok_of_not_flag _ _ hwn
      rcases List.mem_cons.mp ha with rfl | ha
      · exact cleanTok_flag "name" "description" (by decide)
      rw [List.mem_singleton] at ha
      subst ha
      exact cleanTok_of_not_flag _ _ hdn
    · intro p hp hpk
      rw [if_pos hpk]
      rfl
    · intro p hp hpk a ha
      rw [if_neg hpk] at ha
      by_cases hh : p.1 = "header"
      · rw [if_pos hh] at ha
        by_cases hb : pyIsTrue p.2
        · rw [if_pos hb] at ha
          rw [List.mem_singleton] at ha
          subst ha
          exact cleanTok_flag "name" "header" (by decide)
        · rw [if_neg hb] at ha
          exact absurd ha (by simp)
      · rw [if_neg hh] at ha
        exact absurd ha (by simp)
  · refine revChunks_flatMap_hit_at "workspace" "file-path" (pyStr w) _
      [pyStr fp, "--name", pyStr n] ["--description", pyStr d]
      ?_ ?_ hwn item2 hnodup ?_ ?_ hexfp
    · intro a ha
      rcases List.mem_cons.mp ha with rfl | ha
      · exact cleanTok_of_not_flag _ _ hfpn
      rcases List.mem_cons.mp ha with rfl | ha
      · exact cleanTok_flag "workspace" "name" (by decide)
      rw [List.mem_singleton] at ha
      subst ha
      exact cleanTok_of_not_flag _ _ hnn
    · intro a ha
      rcases List.mem_cons.mp ha with rfl | ha
      · exact cleanTok_flag "workspace" "description" (by decide)
      rw [List.mem_singleton] at ha
      subst ha
      exact cleanTok_of_not_flag _ _ hdn
    · intro p hp hpk
      rw [if_pos hpk]
      rfl
    · intro p hp hpk a ha
      rw [if_neg hpk] at ha
      by_cases hh : p.1 = "header"
      · rw [if_pos hh] at ha
        by_cases hb : pyIsTrue p.2
        · rw [if_pos hb] at ha
          rw [List.mem_singleton] at ha
          subst ha
          exact cleanTok_flag "workspace" "header" (by decide)
        · rw [if_neg hb] at ha
          exact absurd ha (by simp)
      · rw [if_neg hh] at ha
        exact absurd ha (by simp)

lemma recovered_from_revchunks (args keys : List String) (k : String) (v : PyValue)
    (hk : k ∈ keys) (hne : k ≠ "")
    (hrc : RevChunks k args (some (pyStr v))) :
    getValue (get_values_from_cmd_args args keys) k = some (pyStr v) := by
  rw [get_values_spec args keys k hk hne]
  exact revChunks_flagOcc hrc Option.none (by simp)

/-- C8 (amended): for every resource type with a DeletionPolicy and
every dictionary-shaped item whose string values do not start with
`--`, reverse-mapping the flat argument list produced by that type's
mapper recovers the value of every DeletionPolicy key that is present
in the item (for `datasets`, provided `file-path` is present — the
counterexample shows an incomplete datasets item maps successfully to
an argument list from which the keys cannot be recovered). -/
theorem reverse_map_recovers_policy_keys (block : String) (item : Item) (c : Nat)
    (k : String) (v : PyValue) (args : List String)
    (hblock : block ∈ policyBlocks)
    (hnodup : (item.map Prod.fst).Nodup)
    (hvals : ∀ p ∈ item, pyStartsWith (pyStr p.2) "--" = false)
    (hk : k ∈ policyKeys block)
    (hkv : dictGet item k = some v)
    (hds : block = "datasets" → (dictGet item "file-path").isSome = true)
    (hargs : reverse_args_of block item c = .ok args) :
    getValue (get_values_from_cmd_args args (policyKeys block)) k = some (pyStr v) := by
  have hnodup2 : ((item.eraseP (fun p => p.1 == "overwrite")).map Prod.fst).Nodup :=
    eraseP_nodup item hnodup
  have hvals2 : ∀ p ∈ item.eraseP (fun p => p.1 == "overwrite"),
      pyStartsWith (pyStr p.2) "--" = false :=
    fun p hp => hvals p (List.mem_of_mem_eraseP hp)
  have hmem : block = "organizations" ∨ block = "teams" ∨ block = "participants" ∨
      block = "workspaces" ∨ block = "credentials" ∨ block = "secrets" ∨
      block = "compute-envs" ∨ block = "datasets" ∨ block = "actions" ∨
      block = "pipelines" := by
    simpa [policyBlocks, generic_deletion] using hblock
  rcases hmem with rfl | rfl | rfl | rfl | rfl | rfl | rfl | rfl | rfl | rfl
  · -- organizations: generic mapper, key "name"
    have hkno : k = "name" := by simpa [policyKeys] using hk
    rw [reverse_args_of_generic "organizations" item c (Or.inl rfl)] at hargs
    have hargs2 := Except.ok.inj hargs
    subst hargs2
    exact recovered_from_revchunks _ _ k v hk (by rw [hkno]; decide)
      (revChunks_generic_hit k v _ hnodup2 hvals2
        ((dictGet_eraseP item k (by rw [hkno]; decide)).trans hkv))
  · -- teams: compound mapper, keys "name" and "organization"
    have hkno : k = "name" ∨ k = "organization" := by simpa [policyKeys] using hk
    cases hok : parse_teams_block (item.eraseP (fun p => p.1 == "overwrite")) with
    | error e =>
      rw [reverse_args_of_teams_error item c e hok] at hargs
      exact absurd hargs (by simp)
    | ok pr =>
      obtain ⟨cmd, members⟩ := pr
      rw [reverse_args_of_teams item c cmd members hok] at hargs
      have hargs2 := Except.ok.inj hargs
      subst hargs2
      have hko : k ≠ "overwrite" := by rcases hkno with rfl | rfl <;> decide
      have hne : k ≠ "" := by rcases hkno with rfl | rfl <;> decide
      refine recovered_from_revchunks _ _ k v hk hne
        (revChunks_teams_hit k v _ hnodup2 hvals2 ?_
          ((dictGet_eraseP item k hko).trans hkv) cmd members hok)
      rcases hkno with rfl | rfl
      · exact Or.inl rfl
      · exact Or.inr (Or.inl rfl)
  · -- participants: generic mapper, keys "name", "type", "workspace"
    have hkno : k = "name" ∨ k = "type" ∨ k = "workspace" := by
      simpa [policyKeys] using hk
    rw [reverse_args_of_generic "participants" item c (Or.inr (Or.inl rfl))] at hargs
    have hargs2 := Except.ok.inj hargs
    subst hargs2
    have hko : k ≠ "overwrite" := by rcases hkno with rfl | rfl | rfl <;> decide
    have hne : k ≠ "" := by rcases hkno with rfl | rfl | rfl <;> decide
    exact recovered_from_revchunks _ _ k v hk hne
      (revChunks_generic_hit k v _ hnodup2 hvals2
        ((dictGet_eraseP item k hko).trans hkv))
  · -- workspaces: generic mapper, keys "name" and "organization"
    have hkno : k = "name" ∨ k = "organization" := by simpa [policyKeys] using hk
    rw [reverse_args_of_generic "workspaces" item c (Or.inr (Or.inr (Or.inl rfl)))] at hargs
    have hargs2 := Except.ok.inj hargs
    subst hargs2
    have hko : k ≠ "overwrite" := by rcases hkno with rfl | rfl <;> decide
    have hne : k ≠ "" := by rcases hkno with rfl | rfl <;> decide
    exact recovered_from_revchunks _ _ k v hk hne
      (revChunks_generic_hit k v _ hnodup2 hvals2
        ((dictGet_eraseP item k hko).trans hkv))
  · -- credentials: "type" is positional, keys "name" and "workspace"
    have hkno : k = "name" ∨ k = "workspace" := by simpa [policyKeys] using hk
    rw [reverse_args_of_credentials item c] at hargs
    have hargs2 := Except.ok.inj hargs
    subst hargs2
    have hko : k ≠ "overwrite" := by rcases hkno with rfl | rfl <;> decide
    have hne : k ≠ "" := by rcases hkno with rfl | rfl <;> decide
    exact recovered_from_revchunks _ _ k v hk hne
      (revChunks_credentials_hit k v _ hnodup2 hvals2
        (by rcases hkno with rfl | rfl <;> decide)
        ((dictGet_eraseP item k hko).trans hkv))
  · -- secrets: generic mapper, keys "name" and "workspace"
    have hkno : k = "name" ∨ k = "workspace" := by simpa [policyKeys] using hk
    rw [reverse_args_of_generic "secrets" item c (Or.inr (Or.inr (Or.inr rfl)))] at hargs
    have hargs2 := Except.ok.inj hargs
    subst hargs2
    have hko : k ≠ "overwrite" := by rcases hkno with rfl | rfl <;> decide
    have hne : k ≠ "" := by rcases hkno with rfl | rfl <;> decide
    exact recovered_from_revchunks _ _ k v hk hne
      (revChunks_generic_hit k v _ hnodup2 hvals2
        ((dictGet_eraseP item k hko).trans hkv))
  · -- compute-envs: "file-path" is positional, keys "name" and "workspace"
    have hkno : k = "name" ∨ k = "workspace" := by simpa [policyKeys] using hk
    rw [reverse_args_of_compute_envs item c] at hargs
    have hargs2 := Except.ok.inj hargs
    subst hargs2
    have hko : k ≠ "overwrite" := by rcases hkno with rfl | rfl <;> decide
    have hne : k ≠ "" := by rcases hkno with rfl | rfl <;> decide
    exact recovered_from_revchunks _ _ k v hk hne
      (revChunks_compute_envs_hit k v _ hnodup2 hvals2
        (by rcases hkno with rfl | rfl <;> decide)
        ((dictGet_eraseP item k hko).trans hkv))
  · -- datasets: the "--name"/"--workspace" pair sits inside the file-path group
    have hkno : k = "name" ∨ k = "workspace" := by simpa [policyKeys] using hk
    have hfpS := hds rfl
    cases hfp0 : dictGet item "file-path" with
    | none =>
      rw [hfp0] at hfpS
      exact absurd hfpS (by decide)
    | some fp =>
      have hfp2 : dictGet (item.eraseP (fun p => p.1 == "overwrite")) "file-path" = some fp :=
        (dictGet_eraseP item "file-path" (by decide)).trans hfp0
      have hexfp : ∃ p ∈ item.eraseP (fun p => p.1 == "overwrite"), p.1 = "file-path" :=
        ⟨("file-path", fp), dictGet_mem _ _ _ hfp2, rfl⟩
      cases hn2 : dictGet (item.eraseP (fun p => p.1 == "overwrite")) "name" with
      | none =>
        obtain ⟨e, he⟩ := datasets_go_error _ (Or.inl hn2) _ hexfp
        rw [reverse_args_of_datasets_error item c e he] at hargs
        exact absurd hargs (by simp)
      | some n =>
        cases hw2 : dictGet (item.eraseP (fun p => p.1 == "overwrite")) "workspace" with
        | none =>
          obtain ⟨e, he⟩ := datasets_go_error _ (Or.inr (Or.inl hw2)) _ hexfp
          rw [reverse_args_of_datasets_error item c e he] at hargs
          exact absurd hargs (by simp)
        | some w =>
          cases hd2 : dictGet (item.eraseP (fun p => p.1 == "overwrite")) "description" with
          | none =>
            obtain ⟨e, he⟩ := datasets_go_error _ (Or.inr (Or.inr hd2)) _ hexfp
            rw [reverse_args_of_datasets_error item c e he] at hargs
            exact absurd hargs (by simp)
          | some d =>
            have hok := datasets_go_ok _ fp n w d hfp2 hn2 hw2 hd2
              (item.eraseP (fun p => p.1 == "overwrite"))
            rw [reverse_args_of_datasets item c _ hok] at hargs
            have hargs2 := Except.ok.inj hargs
            subst hargs2
            have hne : k ≠ "" := by rcases hkno with rfl | rfl <;> decide
            have hkv2 : dictGet (item.eraseP (fun p => p.1 == "overwrite")) k = some v :=
              (dictGet_eraseP item k (by rcases hkno with rfl | rfl <;> decide)).trans hkv
            have hsel : (k = "name" ∧ n = v) ∨ (k = "workspace" ∧ w = v) := by
              rcases hkno with rfl | rfl
              · refine Or.inl ⟨rfl, ?_⟩
                rw [hn2] at hkv2
                exact Option.some.inj hkv2
              · refine Or.inr ⟨rfl, ?_⟩
                rw [hw2] at hkv2
                exact Option.some.inj hkv2
            exact recovered_from_revchunks _ _ k v hk hne
              (revChunks_datasets_hit k _ fp n w d v hnodup2 hvals2 hsel hfp2 hn2 hw2 hd2)
  · -- actions: "type" positional, "params" to a temp file; keys "name", "workspace"
    have hkno : k = "name" ∨ k = "workspace" := by simpa [policyKeys] using hk
    rw [reverse_args_of_actions item c] at hargs
    have hargs2 := Except.ok.inj hargs
    subst hargs2
    have hko : k ≠ "overwrite" := by rcases hkno with rfl | rfl <;> decide
    have hne : k ≠ "" := by rcases hkno with rfl | rfl <;> decide
    exact recovered_from_revchunks _ _ k v hk hne
      (revChunks_actions_hit k v _ c hnodup2 hvals2
        (by rcases hkno with rfl | rfl <;> decide)
        (by rcases hkno with rfl | rfl <;> decide)
        (by rcases hkno with rfl | rfl <;> decide)
        ((dictGet_eraseP item k hko).trans hkv))
  · -- pipelines: bucketed mapper; keys "name", "workspace"
    have hkno : k = "name" ∨ k = "workspace" := by simpa [policyKeys] using hk
    rw [reverse_args_of_pipelines item c] at hargs
    have hargs2 := Except.ok.inj hargs
    subst hargs2
    have hko : k ≠ "overwrite" := by rcases hkno with rfl | rfl <;> decide
    have hne : k ≠ "" := by rcases hkno with rfl | rfl <;> decide
    exact recovered_from_revchunks _ _ k v hk hne
      (revChunks_pipelines_hit k v _ c hnodup2 hvals2
        (by rcases hkno with rfl | rfl <;> decide)
        (by rcases hkno with rfl | rfl <;> decide)
        (by rcases hkno with rfl | rfl <;> decide)
        (by rcases hkno with rfl | rfl <;> decide)
        ((dictGet_eraseP item k hko).trans hkv))

/-- Witness for C8 (amended) on a concrete credentials item with a
positional `type`, an `overwrite` field to pop, and the policy key
`name` to recover. -/
theorem reverse_map_recovers_policy_keys_witness :
    getValue (get_values_from_cmd_args ["aws", "--name", "mycreds", "--workspace", "ws1"]
        (policyKeys "credentials")) "name" = some (pyStr (PyValue.str "mycreds")) :=
  reverse_map_recovers_policy_keys "credentials"
    [("type", PyValue.str "aws"), ("name", PyValue.str "mycreds"),
     ("workspace", PyValue.str "ws1"), ("overwrite", PyValue.bool true)] 0
    "name" (PyValue.str "mycreds") ["aws", "--name", "mycreds", "--workspace", "ws1"]
    (by decide) (by decide) (by decide) (by decide) rfl (by decide) rfl

/-! ### C9: the overwrite flag never resurfaces as an argument token -/

lemma pyIter_ok (v : PyValue) (ms : List PyValue) (h : pyIter v = .ok ms) :
    ms = iterElems v := by
  cases v with
  | str s => exact (Except.ok.inj h).symm
  | list xs => exact (Except.ok.inj h).symm
  | dict ps => exact (Except.ok.inj h).symm
  | bool b => exact absurd h (by simp [pyIter])
  | int n => exact absurd h (by simp [pyIter])
  | none => exact absurd h (by simp [pyIter])

lemma generic_no_overwrite : ∀ (item2 : Item),
    (∀ p ∈ item2, p.1 ≠ "overwrite") →
    (∀ p ∈ item2, pyStr p.2 ≠ "--overwrite") →
    "--overwrite" ∉ parse_generic_block item2
  | [], _, _ => by simp [parse_generic_block]
  | (key, value) :: rest, hkeys, hvals => by
    rw [parse_generic_block]
    intro hmem
    rcases List.mem_cons.mp hmem with hx | hmem
    · exact dashdash_ne_overwrite key (hkeys _ (List.mem_cons_self _ _)) hx.symm
    rcases List.mem_cons.mp hmem with hx | hmem
    · exact hvals _ (List.mem_cons_self _ _) hx.symm
    · exact generic_no_overwrite rest (fun p hp => hkeys p (List.mem_cons_of_mem _ hp))
        (fun p hp => hvals p (List.mem_cons_of_mem _ hp)) hmem

lemma credentials_no_overwrite : ∀ (item2 : Item),
    (∀ p ∈ item2, p.1 ≠ "overwrite") →
    (∀ p ∈ item2, pyStr p.2 ≠ "--overwrite") →
    "--overwrite" ∉ parse_credentials_block item2
  | [], _, _ => by simp [parse_credentials_block]
  | (key, value) :: rest, hkeys, hvals => by
    have hkr := fun p hp => hkeys p (List.mem_cons_of_mem _ hp)
    have hvr := fun p hp => hvals p (List.mem_cons_of_mem _ hp)
    rw [parse_credentials_block]
    by_cases ht : key = "type"
    · rw [if_pos ht]
      intro hmem
      rcases List.mem_cons.mp hmem with hx | hmem
      · exact hvals _ (List.mem_cons_self _ _) hx.symm
      · exact credentials_no_overwrite rest hkr hvr hmem
    · rw [if_neg ht]
      intro hmem
      rcases List.mem_cons.mp hmem with hx | hmem
      · exact dashdash_ne_overwrite key (hkeys _ (List.mem_cons_self _ _)) hx.symm
      rcases List.mem_cons.mp hmem with hx | hmem
      · exact hvals _ (List.mem_cons_self _ _) hx.symm
      · exact credentials_no_overwrite rest hkr hvr hmem

lemma compute_envs_no_overwrite : ∀ (item2 : Item),
    (∀ p ∈ item2, p.1 ≠ "overwrite") →
    (∀ p ∈ item2, pyStr p.2 ≠ "--overwrite") →
    "--overwrite" ∉ parse_compute_envs_block item2
  | [], _, _ => by simp [parse_compute_envs_block]
  | (key, value) :: rest, hkeys, hvals => by
    have hkr := fun p hp => hkeys p (List.mem_cons_of_mem _ hp)
    have hvr := fun p hp => hvals p (List.mem_cons_of_mem _ hp)
    rw [parse_compute_envs_block]
    by_cases ht : key = "file-path"
    · rw [if_pos ht]
      intro hmem
      rcases List.mem_cons.mp hmem with hx | hmem
      · exact hvals _ (List.mem_cons_self _ _) hx.symm
      · exact compute_envs_no_overwrite rest hkr hvr hmem
    · rw [if_neg ht]
      intro hmem
      rcases List.mem_cons.mp hmem with hx | hmem
      · exact dashdash_ne_overwrite key (hkeys _ (List.mem_cons_self _ _)) hx.symm
      rcases List.mem_cons.mp hmem with hx | hmem
      · exact hvals _ (List.mem_cons_self _ _) hx.symm
      · exact compute_envs_no_overwrite rest hkr hvr hmem

lemma actions_no_overwrite : ∀ (item2 : Item) (c : Nat),
    (∀ p ∈ item2, p.1 ≠ "overwrite") →
    (∀ p ∈ item2, pyStr p.2 ≠ "--overwrite") →
    "--overwrite" ∉ (parse_actions_block item2 c).1
  | [], _, _, _ => by simp [parse_actions_block]
  | (key, value) :: rest, c, hkeys, hvals => by
    have hkr := fun p hp => hkeys p (List.mem_cons_of_mem _ hp)
    have hvr := fun p hp => hvals p (List.mem_cons_of_mem _ hp)
    rw [parse_actions_cons]
    by_cases ht : key = "type"
    · rw [if_pos ht]
      intro hmem
      rcases List.mem_cons.mp hmem with hx | hmem
      · exact hvals _ (List.mem_cons_self _ _) hx.symm
      · exact actions_no_overwrite rest c hkr hvr hmem
    · rw [if_neg ht]
      by_cases hpp : key = "params"
      · rw [if_pos hpp]
        intro hmem
        rcases List.mem_cons.mp hmem with hx | hmem
        · exact absurd hx (by decide)
        rcases List.mem_cons.mp hmem with hx | hmem
        · exact temp_ne_overwrite c hx.symm
        · exact actions_no_overwrite rest (c + 1) hkr hvr hmem
      · rw [if_neg hpp]
        intro hmem
        rcases List.mem_cons.mp hmem with hx | hmem
        · exact dashdash_ne_overwrite key (hkeys _ (List.mem_cons_self _ _)) hx.symm
        rcases List.mem_cons.mp hmem with hx | hmem
        · exact hvals _ (List.mem_cons_self _ _) hx.symm
        · exact actions_no_overwrite rest c hkr hvr hmem

lemma datasets_no_overwrite (item : Item)
    (hvals : ∀ p ∈ item, pyStr p.2 ≠ "--overwrite") :
    ∀ (l : Item) (args : List String), parse_datasets_go item l = .ok args →
    "--overwrite" ∉ args
  | [], args, h => by
    simp only [parse_datasets_go, Except.ok.injEq] at h
    rw [← h]
    simp
  | (key, value) :: rest, args, h => by
    rw [parse_datasets_go] at h
    by_cases hk : key = "file-path"
    · rw [if_pos hk] at h
      cases hfp : dictGet item "file-path" with
      | none =>
        rw [hfp] at h
        exact absurd h (by simp)
      | some fp =>
        rw [hfp] at h
        cases hn : dictGet item "name" with
        | none =>
          rw [hn] at h
          exact absurd h (by simp)
        | some n =>
          rw [hn] at h
          cases hw : dictGet item "workspace" with
          | none =>
            rw [hw] at h
            exact absurd h (by simp)
          | some w =>
            rw [hw] at h
            cases hd : dictGet item "description" with
            | none =>
              rw [hd] at h
              exact absurd h (by simp)
            | some d =>
              rw [hd] at h
              cases hrec : parse_datasets_go item rest with
              | error e =>
                rw [hrec] at h
                exact absurd h (by simp)
              | ok args' =>
                rw [hrec] at h
                simp only [Except.ok.injEq] at h
                rw [← h]
                intro hmem
                rcases List.mem_cons.mp hmem with hx | hmem
                · exact hvals _ (dictGet_mem item _ _ hfp) hx.symm
                rcases List.mem_cons.mp hmem with hx | hmem
                · exact absurd hx (by decide)
                rcases List.mem_cons.mp hmem with hx | hmem
                · exact hvals _ (dictGet_mem item _ _ hn) hx.symm
                rcases List.mem_cons.mp hmem with hx | hmem
                · exact absurd hx (by decide)
                rcases List.mem_cons.mp hmem with hx | hmem
                · exact hvals _ (dictGet_mem item _ _ hw) hx.symm
                rcases List.mem_cons.mp hmem with hx | hmem
                · exact absurd hx (by decide)
                rcases List.mem_cons.mp hmem with hx | hmem
                · exact hvals _ (dictGet_mem item _ _ hd) hx.symm
                · exact datasets_no_overwrite item hvals rest args' hrec hmem
    · rw [if_neg hk] at h
      by_cases hh : key = "header"
      · rw [if_pos hh] at h
        by_cases hb : pyIsTrue value
        · rw [if_pos hb] at h
          cases hrec : parse_datasets_go item rest with
          | error e =>
            rw [hrec] at h
            exact absurd h (by simp)
          | ok args' =>
            rw [hrec] at h
            simp only [Except.ok.injEq] at h
            rw [← h]
            intro hmem
            rcases List.mem_cons.mp hmem with hx | hmem
            · exact absurd hx (by decide)
            · exact datasets_no_overwrite item hvals rest args' hrec hmem
        · rw [if_neg hb] at h
          exact datasets_no_overwrite item hvals rest args h
      · rw [if_neg hh] at h
        exact datasets_no_overwrite item hvals rest args h

lemma launchRepoBucket_tokens (item : Item) (a : String)
    (ha : a ∈ launchRepoBucket item) : ∃ p ∈ item, a = pyStr p.2 := by
  rw [launchRepoBucket, List.mem_flatMap] at ha
  obtain ⟨p, hp, hap⟩ := ha
  by_cases hc : p.1 = "pipeline" ∨ p.1 = "url"
  · rw [if_pos hc] at hap
    rw [List.mem_singleton] at hap
    exact ⟨p, hp, hap⟩
  · rw [if_neg hc] at hap
    exact absurd hap (by simp)

lemma pipelines_no_overwrite (item2 : Item) (c : Nat)
    (hnodup : (item2.map Prod.fst).Nodup)
    (hkeys : ∀ p ∈ item2, p.1 ≠ "overwrite")
    (hvals : ∀ p ∈ item2, pyStr p.2 ≠ "--overwrite") :
    "--overwrite" ∉ (parse_pipelines_block item2 c).1 := by
  rcases hgo : parse_pipelines_go item2 c with ⟨⟨r, pa, f⟩, d⟩
  have h1 : r = pipelinesRepoBucket item2 := by
    have := pipelines_go_repo item2 c
    rw [hgo] at this
    exact this
  have h2 : pa = pipelinesParamsBucket item2 c := by
    have := pipelines_go_params item2 c hnodup
    rw [hgo] at this
    exact this
  have h3 : f = pipelinesFlagsBucket item2 := by
    have := pipelines_go_flags item2 c
    rw [hgo] at this
    exact this
  have hblockeq : (parse_pipelines_block item2 c).1 =
      pipelinesRepoBucket item2 ++ pipelinesParamsBucket item2 c ++
        pipelinesFlagsBucket item2 := by
    rw [parse_pipelines_block, hgo]
    show r ++ pa ++ f = _
    rw [h1, h2, h3]
  rw [hblockeq]
  intro hmem
  rcases List.mem_append.mp hmem with hmem | hmem
  · rcases List.mem_append.mp hmem with hmem | hmem
    · obtain ⟨p, hp, hap⟩ := pipelinesRepoBucket_tokens item2 _ hmem
      exact hvals p hp hap.symm
    · rw [pipelinesParamsBucket] at hmem
      cases hdg : dictGet item2 "params" with
      | none =>
        rw [hdg] at hmem
        exact absurd hmem (by simp)
      | some pv =>
        rw [hdg] at hmem
        rcases List.mem_cons.mp hmem with hx | hmem
        · exact absurd hx (by decide)
        rw [List.mem_singleton] at hmem
        exact temp_ne_overwrite c hmem.symm
  · rw [pipelinesFlagsBucket, List.mem_flatMap] at hmem
    obtain ⟨p, hp, hmp⟩ := hmem
    by_cases hc : p.1 = "url" ∨ p.1 = "file-path" ∨ p.1 = "params"
    · rw [if_pos hc] at hmp
      exact absurd hmp (by simp)
    · rw [if_neg hc] at hmp
      rcases List.mem_cons.mp hmp with hx | hmp
      · exact dashdash_ne_overwrite p.1 (hkeys p hp) hx.symm
      · rw [List.mem_singleton] at hmp
        exact hvals p hp hmp.symm

lemma launch_no_overwrite (item2 : Item) (c : Nat)
    (hnodup : (item2.map Prod.fst).Nodup)
    (hkeys : ∀ p ∈ item2, p.1 ≠ "overwrite")
    (hvals : ∀ p ∈ item2, pyStr p.2 ≠ "--overwrite") :
    "--overwrite" ∉ (parse_launch_block item2 c).1 := by
  rcases hgo : parse_launch_go item2 c with ⟨⟨r, f⟩, d⟩
  have h1 : r = launchRepoBucket item2 := by
    have := launch_go_repo item2 c
    rw [hgo] at this
    exact this
  have h2 : f = launchRestBucket item2 c := by
    have := launch_go_rest item2 c hnodup
    rw [hgo] at this
    exact this
  have hblockeq : (parse_launch_block item2 c).1 =
      launchRepoBucket item2 ++ launchRestBucket item2 c := by
    rw [parse_launch_block, hgo]
    show r ++ f = _
    rw [h1, h2]
  rw [hblockeq]
  intro hmem
  rcases List.mem_append.mp hmem with hmem | hmem
  · obtain ⟨p, hp, hap⟩ := launchRepoBucket_tokens item2 _ hmem
    exact hvals p hp hap.symm
  · rw [launchRestBucket, List.mem_flatMap] at hmem
    obtain ⟨p, hp, hmp⟩ := hmem
    by_cases hc : p.1 = "pipeline" ∨ p.1 = "url"
    · rw [if_pos hc] at hmp
      exact absurd hmp (by simp)
    · rw [if_neg hc] at hmp
      by_cases hpp : p.1 = "params"
      · rw [if_pos hpp] at hmp
        rcases List.mem_cons.mp hmp with hx | hmp
        · exact absurd hx (by decide)
        rw [List.mem_singleton] at hmp
        exact temp_ne_overwrite c hmp.symm
      · rw [if_neg hpp] at hmp
        rcases List.mem_cons.mp hmp with hx | hmp
        · exact dashdash_ne_overwrite p.1 (hkeys p hp) hx.symm
        · rw [List.mem_singleton] at hmp
          exact hvals p hp hmp.symm

lemma teams_cmd_no_overwrite (item2 : Item) (cmd : List String)
    (members : List (List String))
    (hok : parse_teams_block item2 = .ok (cmd, members))
    (hkeys : ∀ p ∈ item2, p.1 ≠ "overwrite")
    (hvals : ∀ p ∈ item2, pyStr p.2 ≠ "--overwrite") :
    "--overwrite" ∉ cmd := by
  rw [parse_teams_go_cmd item2 item2 cmd members hok]
  intro hmem
  rw [List.mem_flatMap] at hmem
  obtain ⟨p, hp, hmp⟩ := hmem
  by_cases hc : p.1 = "name" ∨ p.1 = "organization" ∨ p.1 = "description"
  · rw [if_pos hc] at hmp
    rcases List.mem_cons.mp hmp with hx | hmp
    · exact dashdash_ne_overwrite p.1 (hkeys p hp) hx.symm
    · rw [List.mem_singleton] at hmp
      exact hvals p hp hmp.symm
  · rw [if_neg hc] at hmp
    exact absurd hmp (by simp)

lemma parse_teams_go_members : ∀ (item l : Item) (cmd : List String)
    (members : List (List String)),
    parse_teams_go item l = .ok (cmd, members) →
    (∀ p ∈ item, cleanValue p.2) →
    (∀ p ∈ l, cleanValue p.2) →
    ∀ m ∈ members, "--overwrite" ∉ m
  | item, [], cmd, members, h, _, _ => by
    rw [parse_teams_go] at h
    simp only [Except.ok.injEq, Prod.mk.injEq] at h
    rw [← h.2]
    intro m hm
    exact absurd hm (by simp)
  | item, (key, value) :: rest, cmd, members, h, hitem, hl => by
    rw [parse_teams_go] at h
    have hl' : ∀ p ∈ rest, cleanValue p.2 := fun p hp => hl p (List.mem_cons_of_mem _ hp)
    by_cases hc : key = "name" ∨ key = "organization" ∨ key = "description"
    · rw [if_pos hc] at h
      cases hrec : parse_teams_go item rest with
      | error e =>
        rw [hrec] at h
        exact absurd h (by simp)
      | ok pr =>
        obtain ⟨cmd', members'⟩ := pr
        rw [hrec] at h
        simp only [Except.ok.injEq, Prod.mk.injEq] at h
        rw [← h.2]
        exact parse_teams_go_members item rest cmd' members' hrec hitem hl'
    · rw [if_neg hc] at h
      by_cases hm : key = "members"
      · rw [if_pos hm] at h
        cases hit : pyIter value with
        | error e =>
          rw [hit] at h
          exact absurd h (by simp)
        | ok ms =>
          rw [hit] at h
          cases ms with
          | nil => exact parse_teams_go_members item rest cmd members h hitem hl'
          | cons m0 ms' =>
            cases hn : dictGet item "name" with
            | none =>
              rw [hn] at h
              exact absurd h (by simp)
            | some nv =>
              rw [hn] at h
              cases ho : dictGet item "organization" with
              | none =>
                rw [ho] at h
                exact absurd h (by simp)
              | some ov =>
                rw [ho] at h
                cases hrec : parse_teams_go item rest with
                | error e =>
                  rw [hrec] at h
                  exact absurd h (by simp)
                | ok pr =>
                  obtain ⟨cmd', members'⟩ := pr
                  rw [hrec] at h
                  simp only [Except.ok.injEq, Prod.mk.injEq] at h
                  rw [← h.2]
                  intro m hm2
                  rcases List.mem_append.mp hm2 with hm2 | hm2
                  · rw [List.mem_map] at hm2
                    obtain ⟨member, hmember, rfl⟩ := hm2
                    have hiter : m0 :: ms' = iterElems value := pyIter_ok value _ hit
                    have hcv : cleanValue value := hl (key, value) (List.mem_cons_self _ _)
                    have hmem_str : pyStr member ≠ "--overwrite" := by
                      apply hcv.2
                      rw [← hiter]
                      exact hmember
                    have hnv : pyStr nv ≠ "--overwrite" :=
                      (hitem _ (dictGet_mem item "name" nv hn)).1
                    have hov : pyStr ov ≠ "--overwrite" :=
                      (hitem _ (dictGet_mem item "organization" ov ho)).1
                    intro hmem
                    rcases List.mem_cons.mp hmem with hx | hmem
                    · exact absurd hx (by decide)
                    rcases List.mem_cons.mp hmem with hx | hmem
                    · exact hnv hx.symm
                    rcases List.mem_cons.mp hmem with hx | hmem
                    · exact absurd hx (by decide)
                    rcases List.mem_cons.mp hmem with hx | hmem
                    · exact hov hx.symm
                    rcases List.mem_cons.mp hmem with hx | hmem
                    · exact absurd hx (by decide)
                    rcases List.mem_cons.mp hmem with hx | hmem
                    · exact absurd hx (by decide)
                    rw [List.mem_singleton] at hmem
                    exact hmem_str hmem.symm
                  · exact parse_teams_go_members item rest cmd' members' hrec hitem hl' m hm2
      · rw [if_neg hm] at h
        exact parse_teams_go_members item rest cmd members h hitem hl'

/-- C9 (amended): for every resource type and every dictionary-shaped
item none of whose values (or iterable elements of values) stringify
to the literal token `--overwrite`, once `parse_block` consumes the
`overwrite` field the token `--overwrite` never appears in the mapped
argument lists; overwrite is carried only as the CommandSpec's
separate field.  (The counterexample shows a field *value* equal to
the string `--overwrite` does resurface verbatim.) -/
theorem overwrite_token_not_in_cmd_args (block_name : String) (item : Item) (c c' : Nat)
    (spec : CommandSpec)
    (hnodup : (item.map Prod.fst).Nodup)
    (hvals : ∀ p ∈ item, cleanValue p.2)
    (hok : parse_block block_name item c = .ok (spec, c')) :
    noOverwriteToken spec.cmd_args := by
  have hkeys2 : ∀ p ∈ item.eraseP (fun q => q.1 == "overwrite"), p.1 ≠ "overwrite" :=
    eraseP_keys_no_overwrite item hnodup
  have hstr2 : ∀ p ∈ item.eraseP (fun q => q.1 == "overwrite"), pyStr p.2 ≠ "--overwrite" :=
    fun p hp => (hvals p (List.mem_of_mem_eraseP hp)).1
  have hclean2 : ∀ p ∈ item.eraseP (fun q => q.1 == "overwrite"), cleanValue p.2 :=
    fun p hp => hvals p (List.mem_of_mem_eraseP hp)
  have hnodup2 := eraseP_nodup item hnodup
  rw [parse_block] at hok
  by_cases h1 : block_name = "credentials"
  · rw [if_pos h1] at hok
    simp only [Except.ok.injEq, Prod.mk.injEq] at hok
    rw [← hok.1]
    show "--overwrite" ∉ parse_credentials_block (item.eraseP (fun q => q.1 == "overwrite"))
    exact credentials_no_overwrite _ hkeys2 hstr2
  · rw [if_neg h1] at hok
    by_cases h2 : block_name = "compute-envs"
    · rw [if_pos h2] at hok
      simp only [Except.ok.injEq, Prod.mk.injEq] at hok
      rw [← hok.1]
      show "--overwrite" ∉ parse_compute_envs_block (item.eraseP (fun q => q.1 == "overwrite"))
      exact compute_envs_no_overwrite _ hkeys2 hstr2
    · rw [if_neg h2] at hok
      by_cases h3 : block_name = "teams"
      · rw [if_pos h3] at hok
        cases hpt : parse_teams_block (item.eraseP (fun q => q.1 == "overwrite")) with
        | error e =>
          rw [hpt] at hok
          exact absurd hok (by simp)
        | ok pr =>
          obtain ⟨cmd, members⟩ := pr
          rw [hpt] at hok
          simp only [Except.ok.injEq, Prod.mk.injEq] at hok
          rw [← hok.1]
          show "--overwrite" ∉ cmd ∧ ∀ m ∈ members, "--overwrite" ∉ m
          exact ⟨teams_cmd_no_overwrite _ cmd members hpt hkeys2 hstr2,
            parse_teams_go_members _ _ cmd members hpt hclean2 hclean2⟩
      · rw [if_neg h3] at hok
        by_cases h4 : block_name = "actions"
        · rw [if_pos h4] at hok
          rcases ha : parse_actions_block (item.eraseP (fun q => q.1 == "overwrite")) c
            with ⟨a, d⟩
          rw [ha] at hok
          simp only [Except.ok.injEq, Prod.mk.injEq] at hok
          rw [← hok.1]
          show "--overwrite" ∉ a
          have := actions_no_overwrite (item.eraseP (fun q => q.1 == "overwrite")) c
            hkeys2 hstr2
          rw [ha] at this
          exact this
        · rw [if_neg h4] at hok
          by_cases h5 : block_name = "datasets"
          · rw [if_pos h5] at hok
            cases hd : parse_datasets_block (item.eraseP (fun q => q.1 == "overwrite")) with
            | error e =>
              rw [hd] at hok
              exact absurd hok (by simp)
            | ok a =>
              rw [hd] at hok
              simp only [Except.ok.injEq, Prod.mk.injEq] at hok
              rw [← hok.1]
              show "--overwrite" ∉ a
              exact datasets_no_overwrite _ hstr2 _ a hd
          · rw [if_neg h5] at hok
            by_cases h6 : block_name = "pipelines"
            · rw [if_pos h6] at hok
              rcases ha : parse_pipelines_block (item.eraseP (fun q => q.1 == "overwrite")) c
                with ⟨a, d⟩
              rw [ha] at hok
              simp only [Except.ok.injEq, Prod.mk.injEq] at hok
              rw [← hok.1]
              show "--overwrite" ∉ a
              have := pipelines_no_overwrite (item.eraseP (fun q => q.1 == "overwrite")) c
                hnodup2 hkeys2 hstr2
              rw [ha] at this
              exact this
            · rw [if_neg h6] at hok
              by_cases h7 : block_name = "launch"
              · rw [if_pos h7] at hok
                rcases ha : parse_launch_block (item.eraseP (fun q => q.1 == "overwrite")) c
                  with ⟨a, d⟩
                rw [ha] at hok
                simp only [Except.ok.injEq, Prod.mk.injEq] at hok
                rw [← hok.1]
                show "--overwrite" ∉ a
                have := launch_no_overwrite (item.eraseP (fun q => q.1 == "overwrite")) c
                  hnodup2 hkeys2 hstr2
                rw [ha] at this
                exact this
              · rw [if_neg h7] at hok
                simp only [Except.ok.injEq, Prod.mk.injEq] at hok
                rw [← hok.1]
                show "--overwrite" ∉ parse_generic_block
                  (item.eraseP (fun q => q.1 == "overwrite"))
                exact generic_no_overwrite _ hkeys2 hstr2

/-- Witness for C9 (amended) on a concrete credentials item carrying
an `overwrite: true` field. -/
theorem overwrite_token_not_in_cmd_args_witness :
    noOverwriteToken (CmdArgs.flat ["aws", "--name", "x"]) :=
  overwrite_token_not_in_cmd_args "credentials"
    [("type", PyValue.str "aws"), ("name", PyValue.str "x"), ("overwrite", PyValue.bool true)]
    0 0 ⟨.flat ["aws", "--name", "x"], PyValue.bool true⟩ (by decide)
    (by
      intro p hp
      rcases List.mem_cons.mp hp with rfl | hp
      · exact ⟨by decide, by decide⟩
      rcases List.mem_cons.mp hp with rfl | hp
      · exact ⟨by decide, by decide⟩
      rcases List.mem_cons.mp hp with rfl | hp
      · exact ⟨by decide, by decide⟩
      · exact absurd hp (by simp)) rfl

end TwPywrap
